import Mathlib

/-!
# Verification of the capybara_fetcher indicator pipeline

Shallow embedding of the core computational components of the
`capybara_fetcher` repository:

* `compute_features`   (src/capybara_fetcher/indicators.py)
* `standardize_ohlcv`  (src/capybara_fetcher/standardize.py)
* the cross-sectional percentile normalization pass and the artifact /
  fail-fast control flow of `run_cache_build`
                       (src/capybara_fetcher/orchestrator.py)
* the industry aggregation engine
                       (src/capybara_fetcher/industry.py)

Numeric values are rationals (`ℚ`); missing values (pandas `NaN` / `NA`)
are `Option`; dataframes are lists of typed rows; fallible functions
return `Except String`.  Dates are modelled as integers that already
denote normalized (day-resolution) timestamps, so pandas
`.dt.normalize()` is the identity in the model.  The repeated
`astype("float32")` casts in the source are reduced-precision *storage*
of otherwise full-precision float64 arithmetic (spec §4.1: an
output-encoding choice); the model computes at full precision in `ℚ`.
-/

namespace CapybaraFetcher

instance {ε α : Type} [DecidableEq ε] [DecidableEq α] : DecidableEq (Except ε α) :=
  fun a b =>
    match a, b with
    | .ok x, .ok y =>
        if h : x = y then .isTrue (by rw [h]) else
          .isFalse fun hc => h (by cases hc; rfl)
    | .error x, .error y =>
        if h : x = y then .isTrue (by rw [h]) else
          .isFalse fun hc => h (by cases hc; rfl)
    | .ok _, .error _ => .isFalse fun hc => Except.noConfusion hc
    | .error _, .ok _ => .isFalse fun hc => Except.noConfusion hc

/-- One standardized instrument daily record, the output row type of
`standardize_ohlcv` and input row type of `compute_features`
(columns Date, Open, High, Low, Close, Volume, Ticker; the optional
TradingValue / Change columns are carried by no claim and are omitted).
`Close` is guaranteed non-missing by `standardize_ohlcv` (its
`dropna(subset=["Date", "Close"])`); Open/High/Low/Volume may be missing. -/
structure Row where
  date : ℤ
  opn : Option ℚ
  hi : Option ℚ
  lo : Option ℚ
  close : ℚ
  volume : Option ℚ
  ticker : String
deriving DecidableEq, Repr

instance : Inhabited Row := ⟨⟨0, none, none, none, 0, none, ""⟩⟩

/-! ## Configured windows (src/capybara_fetcher/indicators.py lines 6-16) -/

def MA_WINDOWS : List ℕ := [5, 10, 20, 60, 120, 200]

def NEW_HIGH_WINDOW_TRADING_DAYS : ℕ := 252

def MANSFIELD_RS_SMA_WINDOW : ℕ := 200

/-- Multi-timeframe Mansfield RS SMA windows (trading days). -/
def MRS_WINDOWS : List (String × ℕ) :=
  [("MRS_1M", 21), ("MRS_3M", 63), ("MRS_6M", 126), ("MRS_12M", 250)]

/-- Modelled from the spec: the volume moving-average window set.  The
VMA computation is absent from src/capybara_fetcher/indicators.py even
though src/capybara_fetcher/orchestrator.py imports `VMA_WINDOWS` from it
and src/tests/test_indicators.py exercises `VMA_20` / `VMA_50`
("Separate, typically smaller, window set for volume", spec §4.1);
the concrete windows 20 and 50 are the ones pinned by the repository's
tests. -/
def VMA_WINDOWS : List ℕ := [20, 50]

/-! ## Rolling windows

pandas `x.rolling(window=w, min_periods=w)` aggregates, at position `i`,
the slice of the `w` most recent observations `x[i+1-w .. i]`, and yields
`NaN` while fewer than `w` observations exist.  With `min_periods = w`
(equal to the window size) a window that contains any `NaN` also has
fewer than `w` valid observations and yields `NaN`. -/

/-- The trailing window of length `w` ending at position `i` (generic). -/
def windowAt (w : ℕ) (xs : List α) (i : ℕ) : List α :=
  (xs.take (i + 1)).drop (i + 1 - w)

/-- `x.rolling(window=w, min_periods=w).mean()` over a series with no
missing values. -/
def rollingMean (w : ℕ) (xs : List ℚ) : List (Option ℚ) :=
  (List.range xs.length).map fun i =>
    if w ≤ i + 1 then some ((windowAt w xs i).sum / (w : ℚ)) else none

/-- `x.rolling(window=w, min_periods=w).mean()` over a series that may
contain missing values: a window holding any missing value has fewer
than `w = min_periods` valid observations and yields missing. -/
def rollingMeanO (w : ℕ) (xs : List (Option ℚ)) : List (Option ℚ) :=
  (List.range xs.length).map fun i =>
    if w ≤ i + 1 then
      if (windowAt w xs i).all Option.isSome then
        some (((windowAt w xs i).filterMap id).sum / (w : ℚ))
      else none
    else none

/-- `x.rolling(window=w, min_periods=w).max()` over a series with no
missing values. -/
def rollingMax (w : ℕ) (xs : List ℚ) : List (Option ℚ) :=
  (List.range xs.length).map fun i =>
    if w ≤ i + 1 then some ((windowAt w xs i).foldr max 0) else none

/-! ## Benchmark series and Mansfield relative strength
(src/capybara_fetcher/indicators.py lines 46-64) -/

/-- A benchmark close series: (normalized date, close) pairs in
observation order.  Mirrors the pandas Series `benchmark_close_by_date`
indexed by date. -/
abbrev BenchSeries := List (ℤ × ℚ)

/-- Date-to-close mapping of the benchmark series after
`s[~s.index.duplicated(keep="last")]`: duplicate dates collapse to the
later-observed value, so the lookup returns the *last* pair carrying the
requested date, and missing dates map to missing (`.map` yields NaN). -/
def benchLookup (bench : BenchSeries) (d : ℤ) : Option ℚ :=
  ((bench.filter fun p => p.1 == d).getLast?).map Prod.snd

/-- `rs_raw = close / bench` where
`bench = df["Date"].dt.normalize().map(benchmark_close_by_date)`:
rows whose date is absent from the benchmark get a missing ratio. -/
def rsRaw (rows : List Row) (bench : BenchSeries) : List (Option ℚ) :=
  rows.map fun r => (benchLookup bench r.date).map fun b => r.close / b

/-- The Mansfield relative-strength column at SMA horizon `h`:
`(rs_raw / rs_raw.rolling(h, min_periods=h).mean() - 1) * 100`.
A row is missing when either its raw ratio or the trailing average is
missing (float arithmetic propagates NaN). -/
def mansfieldAt (h : ℕ) (rows : List Row) (bench : BenchSeries) : List (Option ℚ) :=
  let rr := rsRaw rows bench
  let sm := rollingMeanO h rr
  (List.range rows.length).map fun i =>
    match rr.getD i none, sm.getD i none with
    | some r, some a => some ((r / a - 1) * 100)
    | _, _ => none

/-! ## compute_features (src/capybara_fetcher/indicators.py lines 19-74) -/

/-- `df.sort_values("Date")`.  The model uses a stable insertion sort;
standardized series have strictly increasing dates (duplicates are
dropped by `standardize_ohlcv`), for which every sort agrees. -/
def sortByDate (rows : List Row) : List Row :=
  rows.insertionSort fun a b => a.date ≤ b.date

def smaName (w : ℕ) : String := "SMA_" ++ toString w

def vmaName (w : ℕ) : String := "VMA_" ++ toString w

/-- The augmented output frame of `compute_features`: the (sorted) input
rows plus the numeric indicator columns keyed by column name, plus the
boolean new-high column.  The raw-MRS columns `MRS_<h>_raw` are part of
`numCols`; they are only replaced by percentile columns later, in the
orchestrator's normalization pass. -/
structure FeatureFrame where
  rows : List Row
  numCols : List (String × List (Option ℚ))
  isNewHigh1Y : List Bool
deriving DecidableEq, Repr

/-- The all-missing relative-strength columns produced when no (or an
empty) benchmark is supplied: `pd.NA` for every row. -/
def rsColsNone (n : ℕ) : List (String × List (Option ℚ)) :=
  ("MansfieldRS", List.replicate n none) ::
    MRS_WINDOWS.map fun p => (p.1 ++ "_raw", List.replicate n none)

/-- The benchmark-backed relative-strength columns. -/
def rsColsBench (s : List Row) (bench : BenchSeries) : List (String × List (Option ℚ)) :=
  ("MansfieldRS", mansfieldAt MANSFIELD_RS_SMA_WINDOW s bench) ::
    MRS_WINDOWS.map fun p => (p.1 ++ "_raw", mansfieldAt p.2 s bench)

/-- `df["IsNewHigh1Y"] = close.eq(roll_max)`: true where the close equals
the trailing 252-observation maximum (inclusive); `x == NaN` is false in
pandas, so rows before the window is full are false. -/
def newHighCol (closes : List ℚ) : List Bool :=
  (List.range closes.length).map fun i =>
    match (rollingMax NEW_HIGH_WINDOW_TRADING_DAYS closes).getD i none with
    | some m => closes.getD i 0 == m
    | none => false

/-- Embedding of `compute_features(ohlcv_df, benchmark_close_by_date=...)`.
The presence of the Date/Close columns is enforced by the `Row` type
(the source's second `ValueError` cannot fire on typed input).
The VMA columns are modelled from the spec: the VMA block is missing from
src/capybara_fetcher/indicators.py (its tests and the orchestrator's use
of VMA_WINDOWS remain), and per spec §4.1 each volume window yields the trailing
simple average of the volume with no partial windows, placed alongside
the price SMA columns. -/
def featureFrameOf (ohlcv_df : List Row) (bench? : Option BenchSeries) : FeatureFrame :=
  let s := sortByDate ohlcv_df
  let closes := s.map Row.close
  let vols := s.map Row.volume
  let smaCols := MA_WINDOWS.map fun w => (smaName w, rollingMean w closes)
  let vmaCols := VMA_WINDOWS.map fun w => (vmaName w, rollingMeanO w vols)
  let rsCols :=
    match bench? with
    | some bench => if bench.isEmpty then rsColsNone s.length else rsColsBench s bench
    | none => rsColsNone s.length
  { rows := s
    numCols := smaCols ++ vmaCols ++ rsCols
    isNewHigh1Y := newHighCol closes }

def compute_features (ohlcv_df : List Row) (bench? : Option BenchSeries) :
    Except String FeatureFrame :=
  if ohlcv_df.isEmpty then .error "ohlcv_df is empty"
  else .ok (featureFrameOf ohlcv_df bench?)

/-! ## standardize_ohlcv (src/capybara_fetcher/standardize.py lines 17-89)

Raw provider rows after column renaming / index handling (pure schema
plumbing on untyped frames, identity in the typed model) and after
`pd.to_datetime` / `.dt.normalize()` on the Date column.  The numeric
columns are what `pd.to_numeric(..., errors="coerce")` produces:
a rational or missing. -/

structure RawRow where
  date : ℤ
  opn : Option ℚ
  hi : Option ℚ
  lo : Option ℚ
  cls : Option ℚ
  vol : Option ℚ
deriving DecidableEq, Repr

/-- pandas' safe cast of one float value to the nullable Int32 dtype:
defined exactly when the value is integral and fits in 32-bit two's
complement range; `astype("Int32")` raises for the whole column
otherwise (numpy safe-casting check in `safe_cast`). -/
def int32SafeCast (x : ℚ) : Option ℤ :=
  if x.den = 1 ∧ -2147483648 ≤ x.num ∧ x.num < 2147483648 then some x.num else none

/-- `column.astype("Int32")`: missing values stay missing; any present
value that cannot be safely cast makes the whole conversion fail. -/
def castColInt32 (xs : List (Option ℚ)) : Except String (List (Option ℤ)) :=
  if xs.all fun x? => match x? with
      | none => true
      | some x => (int32SafeCast x).isSome
  then .ok (xs.map fun x? => x?.bind int32SafeCast)
  else .error "cannot safely cast non-equivalent float64 to int32"

/-- `str(ticker).strip().zfill(6)` (the strip is identity on the
already-clean ticker strings the model ranges over). -/
def zfill6 (s : String) : String :=
  String.mk (List.replicate (6 - s.length) '0') ++ s

/-- `drop_duplicates(subset=["Date"], keep="last")`: a row survives iff
no later row carries the same date. -/
def dedupKeepLastByDate : List Row → List Row
  | [] => []
  | r :: rest =>
      if rest.any fun x => x.date == r.date then dedupKeepLastByDate rest
      else r :: dedupKeepLastByDate rest

/-- The surviving rows after the casts: `dropna(subset=["Date", "Close"])`
keeps the rows whose (cast) Close is present, carrying over the cast
OHLC values, the ticker, and the volume. -/
def keptRows (raw_df : List RawRow) (t : String)
    (opns his los clss : List (Option ℤ)) : List Row :=
  (List.range raw_df.length).filterMap fun i =>
    match clss.getD i none with
    | some c =>
        some { date := (raw_df.getD i ⟨0, none, none, none, none, none⟩).date
               opn := (opns.getD i none).map fun z => (z : ℚ)
               hi := (his.getD i none).map fun z => (z : ℚ)
               lo := (los.getD i none).map fun z => (z : ℚ)
               close := (c : ℚ)
               volume := (raw_df.getD i ⟨0, none, none, none, none, none⟩).vol
               ticker := t }
    | none => none

/-- Embedding of `standardize_ohlcv(raw_df, ticker=...)`.  In source
order: empty-input check; (schema normalization, identity here); OHLC
coercion to nullable Int32 — which happens *before* the Close dropna, so
a bad value in a row that would later be dropped still fails the run,
and the Open column is checked first; `dropna(subset=["Date", "Close"])`;
sort by date; `drop_duplicates(subset=["Date"], keep="last")`; final
emptiness check.  The required-columns and Date checks are enforced by
the `RawRow` type; the optional TradingValue/Change columns are omitted
(used by no claim). -/
def standardize_ohlcv (raw_df : List RawRow) (ticker : String) :
    Except String (List Row) :=
  if raw_df.isEmpty then .error "raw_df is empty" else
  match castColInt32 (raw_df.map RawRow.opn), castColInt32 (raw_df.map RawRow.hi),
      castColInt32 (raw_df.map RawRow.lo), castColInt32 (raw_df.map RawRow.cls) with
  | .error e, _, _, _ => .error e
  | .ok _, .error e, _, _ => .error e
  | .ok _, .ok _, .error e, _ => .error e
  | .ok _, .ok _, .ok _, .error e => .error e
  | .ok opns, .ok his, .ok los, .ok clss =>
      let rows := dedupKeepLastByDate
        (sortByDate (keptRows raw_df (zfill6 ticker) opns his los clss))
      if rows.isEmpty then .error "No valid rows after standardization"
      else .ok rows

/-! ## Cross-sectional percentile normalization
(src/capybara_fetcher/orchestrator.py lines 196-211)

One `MRS_<horizon>_raw` column of the assembled universe panel, viewed
per row.  `full_df.groupby("Date")[raw_col].rank(pct=True,
method="average")` ranks each non-missing value within the set of
non-missing values sharing its Date (NaN rows keep NaN, `na_option =
"keep"` being the default, and are excluded from the group's count), so a
value `v` receives the average of the 1-based ordinal ranks of its tied
group, divided by the number of non-missing values on that date. -/

structure PanelRow where
  date : ℤ
  ticker : String
  raw : Option ℚ
deriving DecidableEq, Repr

/-- A normalized panel row: the raw column has been replaced by the
percentile column (`drop(columns=raw_cols_to_drop)`), so no raw field
remains in the output row type. -/
structure NormRow where
  date : ℤ
  ticker : String
  mrs : Option ℚ
deriving DecidableEq, Repr

/-- The ranking population of a date: the non-missing raw values of all
panel rows sharing that date. -/
def datePop (panel : List PanelRow) (d : ℤ) : List ℚ :=
  (panel.filter fun r => r.date == d).filterMap PanelRow.raw

/-- `rank(method="average")` of value `v` within the multiset `vs`:
the tied group of `v` occupies the 1-based rank block
`[countP (· < v) + 1, countP (· < v) + count v]`, and each member gets
the block's midpoint `countP (· < v) + (count v + 1) / 2`. -/
def rankAvg (v : ℚ) (vs : List ℚ) : ℚ :=
  ((vs.countP fun x => decide (x < v) : ℕ) : ℚ) + (((vs.count v : ℕ) : ℚ) + 1) / 2

/-- `rank(pct=True, ...).mul(100.0)`: percentage rank on the 0-100 scale. -/
def pctRank (v : ℚ) (vs : List ℚ) : ℚ :=
  rankAvg v vs / (vs.length : ℚ) * 100

/-- `.round(2)`: rounding to two decimal places. -/
def round2 (x : ℚ) : ℚ := ((round (x * 100) : ℤ) : ℚ) / 100

/-- The normalization pass for one raw column over the assembled panel:
each non-missing raw value becomes its rounded per-date percentile rank,
missing raw values stay missing, and the output row type carries the
percentile column in place of the raw one. -/
def normalizePanel (panel : List PanelRow) : List NormRow :=
  panel.map fun r =>
    { date := r.date
      ticker := r.ticker
      mrs := r.raw.map fun v => round2 (pctRank v (datePop panel r.date)) }

/-! ## Industry aggregation engine
(src/capybara_fetcher/industry.py, compute_industry_feature_frame)

The engine projects the panel to (Date, Ticker, Close), joins the
taxonomy, computes per-instrument percentage-change returns, groups by
(IndustryKey, Date), re-indexes onto the full key x date-grid cross
product and compounds the equal-weight index. -/

/-- A projected panel row `feature_df[["Date", "Ticker", "Close"]]` after
cleaning (ticker zfill, date normalization, Close coercion, dropna). -/
structure IRow where
  ticker : String
  date : ℤ
  close : ℚ
deriving DecidableEq, Repr

instance : Inhabited IRow := ⟨⟨"", 0, 0⟩⟩

/-- First value for a key in the seen-accumulator (most recent first). -/
def lookupSeen (seen : List (String × ℚ)) (t : String) : Option ℚ :=
  (seen.find? fun p => p.1 == t).map Prod.snd

/-- Worker for `df.groupby("Ticker", sort=False)["Close"].pct_change()`:
walks the frame in row order keeping, per ticker, the close of the
previous row of the same ticker; a row with no earlier same-ticker row
(the first observation of its own series) gets a missing return. -/
def pctChangeGo (seen : List (String × ℚ)) : List IRow → List (Option ℚ)
  | [] => []
  | r :: rest =>
      (match lookupSeen seen r.ticker with
       | some c0 => some (r.close / c0 - 1)
       | none => none) :: pctChangeGo ((r.ticker, r.close) :: seen) rest

/-- `df["Ret"] = df.groupby("Ticker", sort=False)["Close"].pct_change()`. -/
def pctChangeRets (rows : List IRow) : List (Option ℚ) := pctChangeGo [] rows

/-- A row tagged with its level-specific IndustryKey (the taxonomy merge)
and its percentage-change return. -/
structure TRow where
  key : String
  date : ℤ
  ret : Option ℚ
deriving DecidableEq, Repr

/-- The taxonomy join plus the return column: each projected row keeps
its date, gets the IndustryKey its ticker maps to under the (already
ETF-filtered and Unknown-normalized) taxonomy, and its pct-change
return. -/
def mkTagged (rows : List IRow) (keyOf : String → String) : List TRow :=
  (rows.zip (pctChangeRets rows)).map fun p =>
    { key := keyOf p.1.ticker, date := p.1.date, ret := p.2 }

/-- The rows of one (IndustryKey, Date) group. -/
def groupRows (t : List TRow) (k : String) (d : ℤ) : List TRow :=
  t.filter fun r => r.key == k && r.date == d

/-- The available (non-missing) constituent returns of a group: exactly
the values pandas' `mean` / `count` aggregations see. -/
def contribRets (t : List TRow) (k : String) (d : ℤ) : List ℚ :=
  (groupRows t k d).filterMap TRow.ret

/-- `agg(ConstituentCount=("Ret", "count"))`: the number of non-missing
returns in the group. -/
def groupCount (t : List TRow) (k : String) (d : ℤ) : ℕ :=
  (contribRets t k d).length

/-- `agg(IndustryReturn=("Ret", "mean"))`: the arithmetic mean of the
non-missing returns, missing (NaN) when the group has none. -/
def groupMean (t : List TRow) (k : String) (d : ℤ) : Option ℚ :=
  if (contribRets t k d).isEmpty then none
  else some ((contribRets t k d).sum / ((contribRets t k d).length : ℚ))

/-- The grid-filled IndustryReturn of a cell: the group mean where one
exists, else the `fillna(0.0)` default (covering both a (key, date) cell
with no rows at all and one whose rows all lack a return). -/
def fillRet (t : List TRow) (k : String) (d : ℤ) : ℚ :=
  (groupMean t k d).getD 0

/-- `sorted(g["IndustryKey"].unique().tolist())`: the observed keys,
deduplicated and sorted. -/
def industryKeys (t : List TRow) : List String :=
  ((t.map TRow.key).dedup).insertionSort fun a b => a ≤ b

/-- One output row of the re-indexed industry frame. -/
structure GRow where
  key : String
  date : ℤ
  ret : ℚ
  cnt : ℕ
  close : ℚ
deriving DecidableEq, Repr

/-- The output cell of the re-indexed industry frame at key `k` and grid
position `i`: the `fillna` defaults and the cumulative product
`IndustryClose = (1 + IndustryReturn).cumprod() * 100` compounded along
the grid order from the grid's first date. -/
def gridCell (t : List TRow) (dates : List ℤ) (k : String) (i : ℕ) : GRow :=
  { key := k
    date := dates.getD i 0
    ret := fillRet t k (dates.getD i 0)
    cnt := groupCount t k (dates.getD i 0)
    close := 100 * ((List.range (i + 1)).map fun j => 1 + fillRet t k (dates.getD j 0)).prod }

/-- The re-indexing onto `MultiIndex.from_product([keys, global_dates])`
with `fillna(0.0)` / `fillna(0)` and the per-key cumulative product
(src/capybara_fetcher/industry.py lines 144-152): one row per key per
grid date, key-major, dates in grid order. -/
def reindexFill (keys : List String) (dates : List ℤ) (t : List TRow) : List GRow :=
  keys.flatMap fun k => (List.range dates.length).map (gridCell t dates k)

/-- The (key, date) cross product `MultiIndex.from_product`. -/
def crossProd (keys : List String) (dates : List ℤ) : List (String × ℤ) :=
  keys.flatMap fun k => dates.map fun d => (k, d)

/-- The column list of the persisted industry frame
(src/capybara_fetcher/industry.py lines 188-206): the fixed columns plus
one `MRS_<horizon>_raw` column per configured horizon.  No percentile
MRS column is ever appended to this frame — the orchestrator's
percentile pass (orchestrator.py lines 196-211) runs on the universe
panel only, before any industry frame exists, and the industry branch
(orchestrator.py lines 244-261) persists the concatenated level frames
as-is. -/
def industryOutputColumns : List String :=
  ["Date", "Level", "IndustryLarge", "IndustryMid", "IndustrySmall", "IndustryKey",
   "IndustryClose", "IndustryReturn", "ConstituentCount", "MansfieldRS"]
    ++ MRS_WINDOWS.map fun p => p.1 ++ "_raw"

/-! ## Orchestrator control flow
(src/capybara_fetcher/orchestrator.py, run_cache_build)

The model captures the stage order, the fail-fast error wrapping and the
artifact writes of `run_cache_build`.  It follows the sequential
(`max_workers == 1`) path; the thread-pool path has the same error and
artifact semantics (the first failed future raises a
`TickerProcessingError` before any file is written, pending futures are
cancelled best-effort, and per spec §5 the worker count never affects
content). -/

def MANSFIELD_BENCHMARK_TICKER : String := "069500"

def INDUSTRY_BENCHMARK_UNIVERSE : String := "universe"

def INDUSTRY_BENCHMARK_069500 : String := "069500"

def INDUSTRY_LEVELS : List String := ["L", "LM", "LMS"]

/-- The error surfaced by a failed run: `TickerProcessingError` carries a
stage and an offending ticker; the orchestrator's other failures
(`ValueError` and friends) propagate unwrapped, with neither. -/
structure RunError where
  stage : Option String
  ticker : Option String
  msg : String
deriving DecidableEq, Repr

/-- An output file written by the run, in write order.  The panel
parquet records the resolved ticker list whose frames it assembles (no
instrument is dropped from a written panel). -/
inductive Artifact
  | panelParquet (srcTickers : List String)
  | industryParquet (cols : List String)
  | industryMetaJson
  | metaJson
deriving DecidableEq, Repr

/-- One row of the provider's stock master, as consumed by the industry
engine (Code / Market / industry labels). -/
structure MasterRow where
  code : String
  market : String
  industryLarge : String
  industryMid : String
  industrySmall : String
deriving DecidableEq, Repr

/-- The instrument-feed collaborator: universe, stock master, and raw
OHLCV per ticker (a fetch either yields a raw frame or fails). -/
structure Provider where
  tickers : List String
  master : List MasterRow
  fetchRaw : String → Except String (List RawRow)

/-- The run configuration fields that steer control flow (dates and
paths are opaque to the model; a path option is its presence flag). -/
structure CacheBuildConfig where
  industryOutput : Bool
  industryMetaOutput : Bool
  industryBenchmark : String
  testLimit : ℕ
deriving DecidableEq, Repr

/-- Per-ticker worker `fetch_one`: fetch, standardize, compute features. -/
def fetchOne (p : Provider) (bench : BenchSeries) (t : String) :
    Except String FeatureFrame := do
  let raw ← p.fetchRaw t
  let std ← standardize_ohlcv raw t
  compute_features std (some bench)

/-- The per-ticker loop: the first failing instrument aborts the whole
run, wrapped as `TickerProcessingError(ticker=t,
stage="fetch/standardize/feature")`; no instrument is silently skipped. -/
def processTickers (p : Provider) (bench : BenchSeries) :
    List String → Except RunError (List FeatureFrame)
  | [] => .ok []
  | t :: rest =>
      match fetchOne p bench t with
      | .error e => .error ⟨some "fetch/standardize/feature", some t, e⟩
      | .ok f => (processTickers p bench rest).map fun fs => f :: fs

/-- Embedding of `run_cache_build(cfg, provider=...)`: the artifacts
written (in order) and the run result.  Stages in source order: resolve
universe; fetch + standardize the benchmark and build
`benchmark_close_by_date`; per-ticker loop; assemble + percentile pass
(content carried by `normalizePanel`, not re-modelled here); save the
feature parquet; optional industry stage (benchmark selection, per-level
`compute_industry_feature_frame` whose empty-master check can still
fail, industry parquet + meta); success meta.  Note the feature parquet
is written *before* the industry stage starts. -/
def run_cache_build (cfg : CacheBuildConfig) (p : Provider) :
    List Artifact × Except RunError Unit :=
  let tickers := if cfg.testLimit > 0 then p.tickers.take cfg.testLimit else p.tickers
  if tickers.isEmpty then ([], .error ⟨none, none, "no tickers returned by provider"⟩)
  else
    match (p.fetchRaw MANSFIELD_BENCHMARK_TICKER).bind
        (fun raw => standardize_ohlcv raw MANSFIELD_BENCHMARK_TICKER) with
    | .error e => ([], .error ⟨none, none, e⟩)
    | .ok benchStd =>
      let bench : BenchSeries := benchStd.map fun r => (r.date, r.close)
      if bench.isEmpty then
        ([], .error ⟨none, none, "benchmark close series is empty after standardization"⟩)
      else
        match processTickers p bench tickers with
        | .error e => ([], .error e)
        | .ok _frames =>
          -- concat + sort + MRS percentile pass, then the panel parquet write
          let arts0 := [Artifact.panelParquet tickers]
          if cfg.industryOutput then
            if cfg.industryBenchmark = INDUSTRY_BENCHMARK_UNIVERSE
                ∨ cfg.industryBenchmark = INDUSTRY_BENCHMARK_069500 then
              -- compute_industry_feature_frame per level: its empty-master
              -- guard is the reachable failure (feature_df is non-empty
              -- here and every configured level is valid)
              if p.master.isEmpty then
                (arts0, .error ⟨none, none, "master_df is empty"⟩)
              else
                let arts1 := arts0 ++ [Artifact.industryParquet industryOutputColumns]
                let arts2 := if cfg.industryMetaOutput then
                    arts1 ++ [Artifact.industryMetaJson] else arts1
                (arts2 ++ [Artifact.metaJson], .ok ())
            else
              (arts0, .error ⟨none, none,
                "invalid industry_benchmark: " ++ cfg.industryBenchmark⟩)
          else
            (arts0 ++ [Artifact.metaJson], .ok ())

/-! ## Generic lemmas: rolling windows, association-list lookup, sorting -/

theorem length_rollingMean (w : ℕ) (xs : List ℚ) :
    (rollingMean w xs).length = xs.length := by
  simp [rollingMean]

theorem rollingMean_getD (w : ℕ) (xs : List ℚ) (i : ℕ) (hi : i < xs.length) :
    (rollingMean w xs).getD i none =
      if w ≤ i + 1 then some ((windowAt w xs i).sum / (w : ℚ)) else none := by
  unfold rollingMean
  rw [List.getD_eq_getElem?_getD, List.getElem?_map, List.getElem?_range hi]
  rfl

theorem length_windowAt (w : ℕ) (xs : List α) (i : ℕ) (hi : i < xs.length)
    (hw : w ≤ i + 1) : (windowAt w xs i).length = w := by
  simp [windowAt]
  omega

theorem windowAt_getD (w : ℕ) (xs : List α) (i k : ℕ) (d : α) (hi : i < xs.length)
    (hw : w ≤ i + 1) (hk : k < w) :
    (windowAt w xs i).getD k d = xs.getD (i + 1 - w + k) d := by
  unfold windowAt
  rw [List.getD_eq_getElem?_getD, List.getD_eq_getElem?_getD, List.getElem?_drop,
    List.getElem?_take_of_lt (by omega)]

theorem lookup_map_inj (f : ℕ → String) (g : ℕ → List (Option ℚ)) :
    ∀ (ws : List ℕ) (w : ℕ), w ∈ ws → (∀ a ∈ ws, f a = f w → a = w) →
      (ws.map fun u => (f u, g u)).lookup (f w) = some (g w)
  | [], w, hw, _ => absurd hw (List.not_mem_nil w)
  | u :: rest, w, hw, hinj => by
      simp only [List.map_cons, List.lookup_cons]
      by_cases h : f w = f u
      · have : u = w := hinj u (List.mem_cons_self u rest) h.symm
        subst this
        simp [h]
      · have hne : (f w == f u) = false := beq_false_of_ne h
        rw [hne]
        have hw' : w ∈ rest := by
          rcases List.mem_cons.mp hw with h1 | h1
          · exact absurd (congrArg f h1) h
          · exact h1
        exact lookup_map_inj f g rest w hw' fun a ha he =>
          hinj a (List.mem_cons_of_mem u ha) he

theorem lookup_map_none (f : ℕ → String) (g : ℕ → List (Option ℚ)) :
    ∀ (ws : List ℕ) (k : String), (∀ a ∈ ws, f a ≠ k) →
      (ws.map fun u => (f u, g u)).lookup k = none
  | [], _, _ => rfl
  | u :: rest, k, hne => by
      simp only [List.map_cons, List.lookup_cons]
      have h : (k == f u) = false :=
        beq_false_of_ne fun he => hne u (List.mem_cons_self u rest) he.symm
      rw [h]
      exact lookup_map_none f g rest k fun a ha => hne a (List.mem_cons_of_mem u ha)

theorem lookup_append_of_none {α : Type} {k : String} {l₁ l₂ : List (String × α)}
    (h : l₁.lookup k = none) : (l₁ ++ l₂).lookup k = l₂.lookup k := by
  induction l₁ with
  | nil => rfl
  | cons p rest ih =>
      rw [List.cons_append, List.lookup_cons]
      rw [List.lookup_cons] at h
      cases hb : (k == p.1) with
      | true => rw [hb] at h; exact absurd h (by simp)
      | false => rw [hb] at h; exact ih h

theorem sortByDate_eq_self (rows : List Row)
    (h : rows.Pairwise fun a b => a.date ≤ b.date) : sortByDate rows = rows :=
  List.Sorted.insertionSort_eq h

theorem lookup_append_of_some {α : Type} {k : String} {v : α} {l₁ l₂ : List (String × α)}
    (h : l₁.lookup k = some v) : (l₁ ++ l₂).lookup k = some v := by
  induction l₁ with
  | nil => exact absurd h (by simp)
  | cons p rest ih =>
      rw [List.cons_append, List.lookup_cons]
      rw [List.lookup_cons] at h
      cases hb : (k == p.1) with
      | true => rw [hb] at h; exact h
      | false => rw [hb] at h; exact ih h

/-- The SMA block of `compute_features` output resolves, for a configured
window, to the rolling mean of the closes of the sorted rows. -/
theorem compute_features_sma_lookup (rows : List Row) (bench? : Option BenchSeries)
    (hne : rows ≠ []) (w : ℕ) (hw : w ∈ MA_WINDOWS) :
    ∃ ff : FeatureFrame, compute_features rows bench? = .ok ff ∧
      ff.numCols.lookup (smaName w) =
        some (rollingMean w ((sortByDate rows).map Row.close)) := by
  have hcase : w = 5 ∨ w = 10 ∨ w = 20 ∨ w = 60 ∨ w = 120 ∨ w = 200 := by
    simpa [MA_WINDOWS] using hw
  have hE : rows.isEmpty = false := by
    cases rows with
    | nil => exact absurd rfl hne
    | cons a l => rfl
  refine ⟨featureFrameOf rows bench?, ?_, ?_⟩
  · unfold compute_features
    rw [hE]
    rfl
  · have hinj : ∀ a ∈ MA_WINDOWS, smaName a = smaName w → a = w := by
      rcases hcase with rfl | rfl | rfl | rfl | rfl | rfl <;> decide
    show (featureFrameOf rows bench?).numCols.lookup (smaName w) = _
    unfold featureFrameOf
    exact lookup_append_of_some (lookup_append_of_some
      (lookup_map_inj smaName (fun u => rollingMean u ((sortByDate rows).map Row.close))
        MA_WINDOWS w hw hinj))

/-- C6: for a date-sorted series of length L and a configured window
w ≤ L, the SMA_w column of the indicator engine is defined on exactly the
last L−w+1 positions — missing on the first w−1, defined from position
w−1 on — and each defined entry is the simple average of the window of
exactly the w most recent closes. -/
theorem sma_defined_exactly_trailing
    (rows : List Row) (bench? : Option BenchSeries)
    (hsorted : rows.Pairwise fun a b => a.date ≤ b.date)
    (w : ℕ) (hw : w ∈ MA_WINDOWS) (hwL : w ≤ rows.length) :
    ∃ ff : FeatureFrame, compute_features rows bench? = .ok ff ∧
      ff.numCols.lookup (smaName w) = some (rollingMean w (rows.map Row.close)) ∧
      (rollingMean w (rows.map Row.close)).length = rows.length ∧
      ∀ i, i < rows.length →
        ((((rollingMean w (rows.map Row.close)).getD i none).isSome) ↔ w ≤ i + 1) ∧
        (w ≤ i + 1 →
          (rollingMean w (rows.map Row.close)).getD i none
            = some ((windowAt w (rows.map Row.close) i).sum / (w : ℚ)) ∧
          (windowAt w (rows.map Row.close) i).length = w ∧
          ∀ k, k < w → (windowAt w (rows.map Row.close) i).getD k 0
            = (rows.map Row.close).getD (i + 1 - w + k) 0) := by
  have hw0 : 0 < w := by
    have : w = 5 ∨ w = 10 ∨ w = 20 ∨ w = 60 ∨ w = 120 ∨ w = 200 := by
      simpa [MA_WINDOWS] using hw
    rcases this with rfl | rfl | rfl | rfl | rfl | rfl <;> omega
  have hne : rows ≠ [] := by
    intro h
    rw [h] at hwL
    simp at hwL
    omega
  obtain ⟨ff, hff, hlook⟩ := compute_features_sma_lookup rows bench? hne w hw
  rw [sortByDate_eq_self rows hsorted] at hlook
  have hlenmap : (rows.map Row.close).length = rows.length := List.length_map _ _
  refine ⟨ff, hff, hlook, by rw [length_rollingMean, hlenmap], ?_⟩
  intro i hi
  have hi' : i < (rows.map Row.close).length := by rw [hlenmap]; exact hi
  constructor
  · rw [rollingMean_getD w _ i hi']
    by_cases h : w ≤ i + 1
    · simp [h]
    · simp [h]
  · intro hwin
    refine ⟨?_, length_windowAt w _ i hi' hwin, fun k hk => windowAt_getD w _ i k 0 hi' hwin hk⟩
    rw [rollingMean_getD w _ i hi', if_pos hwin]

/-- Witness for `sma_defined_exactly_trailing` at a concrete five-row
series with window 5. -/
theorem sma_defined_exactly_trailing_witness :
    ([⟨1, none, none, none, 10, none, "A"⟩, ⟨2, none, none, none, 20, none, "A"⟩,
      ⟨3, none, none, none, 30, none, "A"⟩, ⟨4, none, none, none, 40, none, "A"⟩,
      ⟨5, none, none, none, 50, none, "A"⟩] : List Row).Pairwise
        (fun a b => a.date ≤ b.date) ∧
    5 ∈ MA_WINDOWS ∧
    (∃ ff : FeatureFrame,
      compute_features [⟨1, none, none, none, 10, none, "A"⟩, ⟨2, none, none, none, 20, none, "A"⟩,
        ⟨3, none, none, none, 30, none, "A"⟩, ⟨4, none, none, none, 40, none, "A"⟩,
        ⟨5, none, none, none, 50, none, "A"⟩] none = .ok ff ∧
      ff.numCols.lookup (smaName 5)
        = some (rollingMean 5 (([⟨1, none, none, none, 10, none, "A"⟩,
            ⟨2, none, none, none, 20, none, "A"⟩, ⟨3, none, none, none, 30, none, "A"⟩,
            ⟨4, none, none, none, 40, none, "A"⟩,
            ⟨5, none, none, none, 50, none, "A"⟩] : List Row).map Row.close)) ∧
      (rollingMean 5 (([⟨1, none, none, none, 10, none, "A"⟩,
          ⟨2, none, none, none, 20, none, "A"⟩, ⟨3, none, none, none, 30, none, "A"⟩,
          ⟨4, none, none, none, 40, none, "A"⟩,
          ⟨5, none, none, none, 50, none, "A"⟩] : List Row).map Row.close)).length = 5 ∧
      ∀ i, i < 5 →
        ((((rollingMean 5 (([⟨1, none, none, none, 10, none, "A"⟩,
            ⟨2, none, none, none, 20, none, "A"⟩, ⟨3, none, none, none, 30, none, "A"⟩,
            ⟨4, none, none, none, 40, none, "A"⟩,
            ⟨5, none, none, none, 50, none, "A"⟩] : List Row).map Row.close)).getD i
              none).isSome) ↔ 5 ≤ i + 1) ∧
        (5 ≤ i + 1 →
          (rollingMean 5 (([⟨1, none, none, none, 10, none, "A"⟩,
            ⟨2, none, none, none, 20, none, "A"⟩, ⟨3, none, none, none, 30, none, "A"⟩,
            ⟨4, none, none, none, 40, none, "A"⟩,
            ⟨5, none, none, none, 50, none, "A"⟩] : List Row).map Row.close)).getD i none
              = some ((windowAt 5 (([⟨1, none, none, none, 10, none, "A"⟩,
                  ⟨2, none, none, none, 20, none, "A"⟩, ⟨3, none, none, none, 30, none, "A"⟩,
                  ⟨4, none, none, none, 40, none, "A"⟩,
                  ⟨5, none, none, none, 50, none, "A"⟩] : List Row).map Row.close) i).sum
                    / (5 : ℚ)) ∧
          (windowAt 5 (([⟨1, none, none, none, 10, none, "A"⟩,
              ⟨2, none, none, none, 20, none, "A"⟩, ⟨3, none, none, none, 30, none, "A"⟩,
              ⟨4, none, none, none, 40, none, "A"⟩,
              ⟨5, none, none, none, 50, none, "A"⟩] : List Row).map Row.close) i).length = 5 ∧
          ∀ k, k < 5 → (windowAt 5 (([⟨1, none, none, none, 10, none, "A"⟩,
              ⟨2, none, none, none, 20, none, "A"⟩, ⟨3, none, none, none, 30, none, "A"⟩,
              ⟨4, none, none, none, 40, none, "A"⟩,
              ⟨5, none, none, none, 50, none, "A"⟩] : List Row).map Row.close) i).getD k 0
            = (([⟨1, none, none, none, 10, none, "A"⟩, ⟨2, none, none, none, 20, none, "A"⟩,
                ⟨3, none, none, none, 30, none, "A"⟩, ⟨4, none, none, none, 40, none, "A"⟩,
                ⟨5, none, none, none, 50, none, "A"⟩] : List Row).map Row.close).getD
                  (i + 1 - 5 + k) 0)) :=
  ⟨by decide, by decide,
    sma_defined_exactly_trailing _ none (by decide) 5 (by decide) (by decide)⟩

theorem length_rollingMeanO (w : ℕ) (xs : List (Option ℚ)) :
    (rollingMeanO w xs).length = xs.length := by
  simp [rollingMeanO]

theorem rollingMeanO_getD (w : ℕ) (xs : List (Option ℚ)) (i : ℕ) (hi : i < xs.length) :
    (rollingMeanO w xs).getD i none =
      if w ≤ i + 1 then
        if (windowAt w xs i).all Option.isSome then
          some (((windowAt w xs i).filterMap id).sum / (w : ℚ))
        else none
      else none := by
  unfold rollingMeanO
  rw [List.getD_eq_getElem?_getD, List.getElem?_map, List.getElem?_range hi]
  rfl

theorem compute_features_ok (rows : List Row) (bench? : Option BenchSeries)
    (hne : rows ≠ []) :
    compute_features rows bench? = .ok (featureFrameOf rows bench?) := by
  have hE : rows.isEmpty = false := by
    cases rows with
    | nil => exact absurd rfl hne
    | cons a l => rfl
  unfold compute_features
  rw [hE]
  rfl

theorem featureFrameOf_vma_lookup (rows : List Row) (bench? : Option BenchSeries)
    (w : ℕ) (hw : w ∈ VMA_WINDOWS) :
    (featureFrameOf rows bench?).numCols.lookup (vmaName w) =
      some (rollingMeanO w ((sortByDate rows).map Row.volume)) := by
  have hcase : w = 20 ∨ w = 50 := by simpa [VMA_WINDOWS] using hw
  have hsma : (MA_WINDOWS.map fun u =>
      (smaName u, rollingMean u ((sortByDate rows).map Row.close))).lookup (vmaName w)
        = none := by
    refine lookup_map_none smaName _ MA_WINDOWS (vmaName w) ?_
    rcases hcase with rfl | rfl <;> decide
  have hinj : ∀ a ∈ VMA_WINDOWS, vmaName a = vmaName w → a = w := by
    rcases hcase with rfl | rfl <;> decide
  simp only [featureFrameOf]
  rw [List.append_assoc, lookup_append_of_none hsma]
  exact lookup_append_of_some
    (lookup_map_inj vmaName (fun u => rollingMeanO u ((sortByDate rows).map Row.volume))
      VMA_WINDOWS w hw hinj)

theorem featureFrameOf_sma_isSome (rows : List Row) (bench? : Option BenchSeries)
    (w : ℕ) (hw : w ∈ MA_WINDOWS) :
    ((featureFrameOf rows bench?).numCols.lookup (smaName w)).isSome := by
  have hcase : w = 5 ∨ w = 10 ∨ w = 20 ∨ w = 60 ∨ w = 120 ∨ w = 200 := by
    simpa [MA_WINDOWS] using hw
  have hinj : ∀ a ∈ MA_WINDOWS, smaName a = smaName w → a = w := by
    rcases hcase with rfl | rfl | rfl | rfl | rfl | rfl <;> decide
  simp only [featureFrameOf]
  rw [lookup_append_of_some (lookup_append_of_some
    (lookup_map_inj smaName (fun u => rollingMean u ((sortByDate rows).map Row.close))
      MA_WINDOWS w hw hinj))]
  rfl

/-- C4: for every non-empty (date-sorted) standardized series, the
indicator output carries — besides every configured price SMA_w column —
a VMA_w column for each window of the separate, smaller volume window
set, whose entries are the trailing simple average of the volume over
exactly w observations and are missing before the window is full.
The VMA computation itself is modelled from the spec, being absent from
src/capybara_fetcher/indicators.py (see `VMA_WINDOWS`). -/
theorem vma_columns_present_and_windowed
    (rows : List Row) (bench? : Option BenchSeries)
    (hsorted : rows.Pairwise fun a b => a.date ≤ b.date) (hne : rows ≠ []) :
    ∃ ff : FeatureFrame, compute_features rows bench? = .ok ff ∧
      (∀ w ∈ MA_WINDOWS, ((ff.numCols.lookup (smaName w)).isSome : Prop)) ∧
      VMA_WINDOWS = [20, 50] ∧
      ∀ w ∈ VMA_WINDOWS,
        ff.numCols.lookup (vmaName w) = some (rollingMeanO w (rows.map Row.volume)) ∧
        (rollingMeanO w (rows.map Row.volume)).length = rows.length ∧
        ∀ i, i < rows.length →
          (i + 1 < w → (rollingMeanO w (rows.map Row.volume)).getD i none = none) ∧
          (w ≤ i + 1 → (windowAt w (rows.map Row.volume) i).all Option.isSome →
            (rollingMeanO w (rows.map Row.volume)).getD i none
              = some (((windowAt w (rows.map Row.volume) i).filterMap id).sum / (w : ℚ)) ∧
            (windowAt w (rows.map Row.volume) i).length = w) := by
  refine ⟨featureFrameOf rows bench?, compute_features_ok rows bench? hne,
    fun w hw => featureFrameOf_sma_isSome rows bench? w hw, rfl, fun w hw => ?_⟩
  have hlk := featureFrameOf_vma_lookup rows bench? w hw
  rw [sortByDate_eq_self rows hsorted] at hlk
  have hlenmap : (rows.map Row.volume).length = rows.length := List.length_map _ _
  refine ⟨hlk, by rw [length_rollingMeanO, hlenmap], fun i hi => ?_⟩
  have hi' : i < (rows.map Row.volume).length := by rw [hlenmap]; exact hi
  constructor
  · intro hlt
    rw [rollingMeanO_getD w _ i hi', if_neg (by omega)]
  · intro hwin hall
    rw [rollingMeanO_getD w _ i hi', if_pos hwin, if_pos hall]
    exact ⟨rfl, length_windowAt w _ i hi' hwin⟩

/-- Witness for `vma_columns_present_and_windowed` at a concrete
two-row series. -/
theorem vma_columns_present_and_windowed_witness :
    (([⟨1, none, none, none, 10, some 7, "A"⟩, ⟨2, none, none, none, 20, some 9, "A"⟩] :
        List Row).Pairwise fun a b => a.date ≤ b.date) ∧
    ([⟨1, none, none, none, 10, some 7, "A"⟩, ⟨2, none, none, none, 20, some 9, "A"⟩] :
        List Row) ≠ [] ∧
    (∃ ff : FeatureFrame,
      compute_features [⟨1, none, none, none, 10, some 7, "A"⟩,
          ⟨2, none, none, none, 20, some 9, "A"⟩] none = .ok ff ∧
      (∀ w ∈ MA_WINDOWS, ((ff.numCols.lookup (smaName w)).isSome : Prop)) ∧
      VMA_WINDOWS = [20, 50] ∧
      ∀ w ∈ VMA_WINDOWS,
        ff.numCols.lookup (vmaName w) = some (rollingMeanO w
          (([⟨1, none, none, none, 10, some 7, "A"⟩, ⟨2, none, none, none, 20, some 9, "A"⟩] :
            List Row).map Row.volume)) ∧
        (rollingMeanO w (([⟨1, none, none, none, 10, some 7, "A"⟩,
            ⟨2, none, none, none, 20, some 9, "A"⟩] : List Row).map Row.volume)).length = 2 ∧
        ∀ i, i < 2 →
          (i + 1 < w → (rollingMeanO w (([⟨1, none, none, none, 10, some 7, "A"⟩,
              ⟨2, none, none, none, 20, some 9, "A"⟩] : List Row).map Row.volume)).getD i none
                = none) ∧
          (w ≤ i + 1 → (windowAt w (([⟨1, none, none, none, 10, some 7, "A"⟩,
              ⟨2, none, none, none, 20, some 9, "A"⟩] : List Row).map Row.volume) i).all
                Option.isSome →
            (rollingMeanO w (([⟨1, none, none, none, 10, some 7, "A"⟩,
              ⟨2, none, none, none, 20, some 9, "A"⟩] : List Row).map Row.volume)).getD i none
              = some (((windowAt w (([⟨1, none, none, none, 10, some 7, "A"⟩,
                  ⟨2, none, none, none, 20, some 9, "A"⟩] : List Row).map Row.volume) i).filterMap
                    id).sum / (w : ℚ)) ∧
            (windowAt w (([⟨1, none, none, none, 10, some 7, "A"⟩,
              ⟨2, none, none, none, 20, some 9, "A"⟩] : List Row).map Row.volume) i).length
                = w)) :=
  ⟨by decide, by decide,
    vma_columns_present_and_windowed _ none (by decide) (by decide)⟩

/-! ## Mansfield relative strength: characterization lemmas -/

theorem windowAt_eq_range_map (w : ℕ) (xs : List (Option ℚ)) (i : ℕ)
    (hi : i < xs.length) (hw : w ≤ i + 1) :
    windowAt w xs i = (List.range w).map fun k => xs.getD (i + 1 - w + k) none := by
  apply List.ext_getElem
  · rw [length_windowAt w xs i hi hw]
    simp
  · intro k h1 h2
    have hk : k < w := by rwa [length_windowAt w xs i hi hw] at h1
    have lhs : (windowAt w xs i)[k] = (windowAt w xs i).getD k none := by
      rw [List.getD_eq_getElem _ _ h1]
    rw [lhs, windowAt_getD w xs i k none hi hw hk]
    rw [List.getElem_map, List.getElem_range]

theorem length_rsRaw (rows : List Row) (bench : BenchSeries) :
    (rsRaw rows bench).length = rows.length := by
  simp [rsRaw]

theorem rsRaw_getD (rows : List Row) (bench : BenchSeries) (i : ℕ) (hi : i < rows.length) :
    (rsRaw rows bench).getD i none =
      (benchLookup bench (rows.getD i default).date).map
        fun b => (rows.getD i default).close / b := by
  unfold rsRaw
  rw [List.getD_eq_getElem?_getD, List.getElem?_map]
  rw [List.getElem?_eq_getElem hi]
  rw [List.getD_eq_getElem _ _ hi]
  rfl

theorem mansfieldAt_length (h : ℕ) (rows : List Row) (bench : BenchSeries) :
    (mansfieldAt h rows bench).length = rows.length := by
  simp [mansfieldAt]

theorem mansfieldAt_getD (h : ℕ) (rows : List Row) (bench : BenchSeries) (i : ℕ)
    (hi : i < rows.length) :
    (mansfieldAt h rows bench).getD i none =
      match (rsRaw rows bench).getD i none,
          (rollingMeanO h (rsRaw rows bench)).getD i none with
      | some r, some a => some ((r / a - 1) * 100)
      | _, _ => none := by
  simp only [mansfieldAt]
  rw [List.getD_eq_getElem?_getD, List.getElem?_map, List.getElem?_range hi]
  rfl

/-- C2: with a benchmark supplied, the engine's relative strength at
horizon h maps each row's (normalized) date to the benchmark close —
duplicate benchmark dates collapsing to the later-observed value — forms
the raw ratio Close / benchmark Close, takes the trailing h-length
simple average of the ratio over a full window (the output is missing
before h observations exist), and emits (raw ratio / trailing average −
1) × 100. -/
theorem mansfield_rs_horizon_formula (h : ℕ) (hh : 0 < h) (rows : List Row)
    (bench : BenchSeries) (B : ℕ → ℚ) :
    (mansfieldAt h rows bench).length = rows.length ∧
    (∀ (pre post : BenchSeries) (d : ℤ) (v : ℚ), (∀ q ∈ post, q.1 ≠ d) →
        benchLookup (pre ++ (d, v) :: post) d = some v) ∧
    ∀ i, i < rows.length →
      (i + 1 < h → (mansfieldAt h rows bench).getD i none = none) ∧
      (h ≤ i + 1 →
        (∀ j, i + 1 - h ≤ j → j ≤ i →
            benchLookup bench (rows.getD j default).date = some (B j)) →
        (mansfieldAt h rows bench).getD i none =
          some ((((rows.getD i default).close / B i) /
            (((List.range h).map fun k =>
                (rows.getD (i + 1 - h + k) default).close / B (i + 1 - h + k)).sum / (h : ℚ))
              - 1) * 100)) := by
  have hlenr : (rsRaw rows bench).length = rows.length := length_rsRaw rows bench
  refine ⟨mansfieldAt_length h rows bench, ?_, ?_⟩
  · intro pre post d v hpost
    unfold benchLookup
    rw [List.filter_append, List.filter_cons]
    have hd : ((d, v).1 == d) = true := by simp
    rw [if_pos hd]
    have hpost0 : post.filter (fun p => p.1 == d) = [] := by
      rw [List.filter_eq_nil_iff]
      intro q hq
      simp only [beq_iff_eq]
      exact fun he => hpost q hq he
    rw [hpost0]
    rw [List.getLast?_concat]
    rfl
  · intro i hi
    have hi' : i < (rsRaw rows bench).length := by rwa [hlenr]
    constructor
    · intro hlt
      rw [mansfieldAt_getD h rows bench i hi]
      rw [rollingMeanO_getD h _ i hi', if_neg (by omega)]
      cases (rsRaw rows bench).getD i none <;> rfl
    · intro hwin HB
      have hratio : ∀ j, i + 1 - h ≤ j → j ≤ i →
          (rsRaw rows bench).getD j none = some ((rows.getD j default).close / B j) := by
        intro j h1 h2
        have hj : j < rows.length := lt_of_le_of_lt h2 hi
        rw [rsRaw_getD rows bench j hj, HB j h1 h2]
        rfl
      have hwinmap : windowAt h (rsRaw rows bench) i =
          (List.range h).map fun k =>
            some ((rows.getD (i + 1 - h + k) default).close / B (i + 1 - h + k)) := by
        rw [windowAt_eq_range_map h _ i hi' hwin]
        apply List.map_congr_left
        intro k hk
        have hk' : k < h := List.mem_range.mp hk
        exact hratio (i + 1 - h + k) (by omega) (by omega)
      have hall : (windowAt h (rsRaw rows bench) i).all Option.isSome = true := by
        rw [hwinmap]
        simp [List.all_eq_true]
      have hfm : (windowAt h (rsRaw rows bench) i).filterMap id =
          (List.range h).map fun k =>
            (rows.getD (i + 1 - h + k) default).close / B (i + 1 - h + k) := by
        rw [hwinmap, List.filterMap_map]
        exact List.filterMap_eq_map_iff_forall_eq_some.mpr fun x => congrFun rfl
      rw [mansfieldAt_getD h rows bench i hi]
      rw [rollingMeanO_getD h _ i hi', if_pos hwin, if_pos hall, hfm]
      rw [hratio i (by omega) (le_refl i)]

/-- Witness for `mansfield_rs_horizon_formula` at horizon 1 on a one-row
series with matching benchmark. -/
theorem mansfield_rs_horizon_formula_witness :
    0 < 1 ∧
    ((mansfieldAt 1 [⟨3, none, none, none, 50, none, "A"⟩] [(3, 25)]).length = 1 ∧
      (∀ (pre post : BenchSeries) (d : ℤ) (v : ℚ), (∀ q ∈ post, q.1 ≠ d) →
          benchLookup (pre ++ (d, v) :: post) d = some v) ∧
      ∀ i, i < 1 →
        (i + 1 < 1 →
          (mansfieldAt 1 [⟨3, none, none, none, 50, none, "A"⟩] [(3, 25)]).getD i none = none) ∧
        (1 ≤ i + 1 →
          (∀ j, i + 1 - 1 ≤ j → j ≤ i →
              benchLookup [(3, 25)]
                (([⟨3, none, none, none, 50, none, "A"⟩] : List Row).getD j default).date
                  = some ((fun _ => (2 : ℚ)) j)) →
          (mansfieldAt 1 [⟨3, none, none, none, 50, none, "A"⟩] [(3, 25)]).getD i none =
            some ((((([⟨3, none, none, none, 50, none, "A"⟩] : List Row).getD i
                default).close / (fun _ => (2 : ℚ)) i) /
              (((List.range 1).map fun k =>
                  (([⟨3, none, none, none, 50, none, "A"⟩] : List Row).getD (i + 1 - 1 + k)
                    default).close / (fun _ => (2 : ℚ)) (i + 1 - 1 + k)).sum / (1 : ℚ))
                - 1) * 100))) :=
  ⟨Nat.one_pos,
    mansfield_rs_horizon_formula 1 Nat.one_pos [⟨3, none, none, none, 50, none, "A"⟩]
      [(3, 25)] fun _ => (2 : ℚ)⟩

/-! ## Scale invariance of relative strength -/

/-- Scaling every instrument close by a constant. -/
def scaleRows (c : ℚ) (rows : List Row) : List Row :=
  rows.map fun r => { r with close := c * r.close }

/-- Scaling every benchmark close by a constant. -/
def scaleBench (c : ℚ) (bench : BenchSeries) : BenchSeries :=
  bench.map fun p => (p.1, c * p.2)

theorem benchLookup_scale (c : ℚ) (bench : BenchSeries) (d : ℤ) :
    benchLookup (scaleBench c bench) d = (benchLookup bench d).map fun b => c * b := by
  unfold benchLookup scaleBench
  rw [List.filter_map]
  have hp : ((fun p : ℤ × ℚ => p.1 == d) ∘ fun p : ℤ × ℚ => (p.1, c * p.2))
      = fun p : ℤ × ℚ => p.1 == d := rfl
  rw [hp, List.getLast?_map]
  cases (bench.filter fun p => p.1 == d).getLast? <;> rfl

theorem rsRaw_scale (c : ℚ) (hc : c ≠ 0) (rows : List Row) (bench : BenchSeries) :
    rsRaw (scaleRows c rows) (scaleBench c bench) = rsRaw rows bench := by
  unfold rsRaw scaleRows
  rw [List.map_map]
  apply List.map_congr_left
  intro r _
  show (benchLookup (scaleBench c bench) r.date).map (fun b => (c * r.close) / b)
      = (benchLookup bench r.date).map fun b => r.close / b
  rw [benchLookup_scale]
  cases benchLookup bench r.date with
  | none => rfl
  | some b =>
      show some (c * r.close / (c * b)) = some (r.close / b)
      rw [mul_div_mul_left r.close b hc]

theorem mansfieldAt_scale (c : ℚ) (hc : c ≠ 0) (h : ℕ) (rows : List Row)
    (bench : BenchSeries) :
    mansfieldAt h (scaleRows c rows) (scaleBench c bench) = mansfieldAt h rows bench := by
  unfold mansfieldAt
  rw [rsRaw_scale c hc rows bench]
  have hl : (scaleRows c rows).length = rows.length := by simp [scaleRows]
  rw [hl]

/-- C8: multiplying both the instrument closes and the benchmark closes
by one positive constant leaves the Mansfield relative-strength output
unchanged on every row, at the canonical horizon and at each additional
configured horizon. -/
theorem mansfield_scale_invariant (c : ℚ) (hc : 0 < c) (rows : List Row)
    (bench : BenchSeries) :
    mansfieldAt MANSFIELD_RS_SMA_WINDOW (scaleRows c rows) (scaleBench c bench)
        = mansfieldAt MANSFIELD_RS_SMA_WINDOW rows bench ∧
    ∀ p ∈ MRS_WINDOWS,
      mansfieldAt p.2 (scaleRows c rows) (scaleBench c bench)
        = mansfieldAt p.2 rows bench :=
  ⟨mansfieldAt_scale c (ne_of_gt hc) MANSFIELD_RS_SMA_WINDOW rows bench,
    fun p _ => mansfieldAt_scale c (ne_of_gt hc) p.2 rows bench⟩

/-- Witness for `mansfield_scale_invariant` with constant 2 on a one-row
series. -/
theorem mansfield_scale_invariant_witness :
    (0 : ℚ) < 2 ∧
    (mansfieldAt MANSFIELD_RS_SMA_WINDOW
        (scaleRows 2 [⟨3, none, none, none, 50, none, "A"⟩]) (scaleBench 2 [(3, 25)])
          = mansfieldAt MANSFIELD_RS_SMA_WINDOW [⟨3, none, none, none, 50, none, "A"⟩] [(3, 25)] ∧
      ∀ p ∈ MRS_WINDOWS,
        mansfieldAt p.2 (scaleRows 2 [⟨3, none, none, none, 50, none, "A"⟩])
            (scaleBench 2 [(3, 25)])
          = mansfieldAt p.2 [⟨3, none, none, none, 50, none, "A"⟩] [(3, 25)]) :=
  ⟨by norm_num,
    mansfield_scale_invariant 2 (by norm_num) [⟨3, none, none, none, 50, none, "A"⟩] [(3, 25)]⟩

/-! ## Percentile-rank lemmas -/

theorem countP_add_count_le_length (v : ℚ) :
    ∀ vs : List ℚ, (vs.countP fun x => decide (x < v)) + vs.count v ≤ vs.length
  | [] => by simp
  | x :: vs => by
      have ih := countP_add_count_le_length v vs
      by_cases h1 : x < v
      · have h2 : ¬x = v := ne_of_lt h1
        simp [List.countP_cons, List.count_cons, List.length_cons, h1, h2]
        omega
      · by_cases h2 : x = v
        · simp [List.countP_cons, List.count_cons, List.length_cons, h1, h2]
          omega
        · simp [List.countP_cons, List.count_cons, List.length_cons, h1, h2]
          omega

theorem countP_add_count_eq_length_of_max (v : ℚ) :
    ∀ vs : List ℚ, (∀ x ∈ vs, x ≤ v) →
      (vs.countP fun x => decide (x < v)) + vs.count v = vs.length
  | [], _ => by simp
  | x :: vs, hmax => by
      have ih := countP_add_count_eq_length_of_max v vs
        fun y hy => hmax y (List.mem_cons_of_mem x hy)
      have hxv : x ≤ v := hmax x (List.mem_cons_self x vs)
      rcases lt_or_eq_of_le hxv with h1 | h1
      · have h2 : ¬x = v := ne_of_lt h1
        simp [List.countP_cons, List.count_cons, List.length_cons, h1, h2]
        omega
      · have h2 : ¬(x < v) := by rw [h1]; exact lt_irrefl v
        simp [List.countP_cons, List.count_cons, List.length_cons, h1, h2]
        omega

theorem one_le_rankAvg (v : ℚ) (vs : List ℚ) (hv : v ∈ vs) : 1 ≤ rankAvg v vs := by
  unfold rankAvg
  have h1 : 0 < vs.count v := List.count_pos_iff.mpr hv
  have h1q : (1 : ℚ) ≤ (vs.count v : ℚ) := by exact_mod_cast h1
  have h0 : (0 : ℚ) ≤ ((vs.countP fun x => decide (x < v) : ℕ) : ℚ) := by positivity
  linarith

theorem rankAvg_le_length (v : ℚ) (vs : List ℚ) (hv : v ∈ vs) :
    rankAvg v vs ≤ (vs.length : ℚ) := by
  unfold rankAvg
  have hnat := countP_add_count_le_length v vs
  have h1 : 0 < vs.count v := List.count_pos_iff.mpr hv
  have hq : ((vs.countP fun x => decide (x < v) : ℕ) : ℚ) + (vs.count v : ℚ)
      ≤ (vs.length : ℚ) := by exact_mod_cast hnat
  have h1q : (1 : ℚ) ≤ (vs.count v : ℚ) := by exact_mod_cast h1
  linarith

theorem pctRank_nonneg (v : ℚ) (vs : List ℚ) (hv : v ∈ vs) : 0 ≤ pctRank v vs := by
  unfold pctRank
  have h1 : (1 : ℚ) ≤ rankAvg v vs := one_le_rankAvg v vs hv
  have h0 : (0 : ℚ) ≤ (vs.length : ℚ) := by positivity
  have := div_nonneg (le_trans zero_le_one h1) h0
  linarith

theorem pctRank_le_100 (v : ℚ) (vs : List ℚ) (hv : v ∈ vs) : pctRank v vs ≤ 100 := by
  unfold pctRank
  have hne : vs ≠ [] := List.ne_nil_of_mem hv
  have hlen : 0 < (vs.length : ℚ) := by
    have : 0 < vs.length := List.length_pos.mpr hne
    exact_mod_cast this
  have hdiv : rankAvg v vs / (vs.length : ℚ) ≤ 1 :=
    (div_le_one hlen).mpr (rankAvg_le_length v vs hv)
  linarith

theorem pctRank_max_no_ties (v : ℚ) (vs : List ℚ) (hv : v ∈ vs)
    (hmax : ∀ x ∈ vs, x ≤ v) (hone : vs.count v = 1) : pctRank v vs = 100 := by
  unfold pctRank rankAvg
  have heq := countP_add_count_eq_length_of_max v vs hmax
  rw [hone] at heq
  have hlen : 0 < vs.length := by omega
  have hlenq : ((vs.length : ℕ) : ℚ) ≠ 0 := by
    have : (0 : ℚ) < (vs.length : ℚ) := by exact_mod_cast hlen
    linarith
  have hq : ((vs.countP fun x => decide (x < v) : ℕ) : ℚ) = (vs.length : ℚ) - 1 := by
    have h2 : ((vs.countP fun x => decide (x < v)) + 1 : ℕ) = vs.length := heq
    have h3 : ((vs.countP fun x => decide (x < v) : ℕ) : ℚ) + 1 = (vs.length : ℚ) := by
      exact_mod_cast h2
    linarith
  rw [hone, hq]
  push_cast
  field_simp

theorem round2_nonneg (x : ℚ) (h : 0 ≤ x) : 0 ≤ round2 x := by
  unfold round2
  have hz : (0 : ℤ) ≤ round (x * 100) := by
    rw [round_eq]
    positivity
  have hq : (0 : ℚ) ≤ ((round (x * 100) : ℤ) : ℚ) := by exact_mod_cast hz
  have : (0 : ℚ) < 100 := by norm_num
  positivity

theorem round2_le_100 (x : ℚ) (h : x ≤ 100) : round2 x ≤ 100 := by
  unfold round2
  have h2 : round (x * 100) ≤ 10000 := by
    rw [round_eq]
    have : ⌊x * 100 + 1 / 2⌋ < 10001 := Int.floor_lt.mpr (by push_cast; linarith)
    omega
  have h2q : ((round (x * 100) : ℤ) : ℚ) ≤ 10000 := by exact_mod_cast h2
  linarith

theorem round2_100 : round2 100 = 100 := by
  unfold round2
  norm_num

theorem normalizePanel_length (panel : List PanelRow) :
    (normalizePanel panel).length = panel.length := by
  simp [normalizePanel]

theorem normalizePanel_getD (panel : List PanelRow) (i : ℕ) (hi : i < panel.length) :
    (normalizePanel panel).getD i ⟨0, "", none⟩ =
      { date := (panel.getD i ⟨0, "", none⟩).date
        ticker := (panel.getD i ⟨0, "", none⟩).ticker
        mrs := (panel.getD i ⟨0, "", none⟩).raw.map fun v =>
          round2 (pctRank v (datePop panel (panel.getD i ⟨0, "", none⟩).date)) } := by
  unfold normalizePanel
  rw [List.getD_eq_getElem?_getD, List.getElem?_map, List.getElem?_eq_getElem hi,
    List.getD_eq_getElem _ _ hi]
  rfl

theorem mem_datePop (panel : List PanelRow) (i : ℕ) (hi : i < panel.length) (v : ℚ)
    (hv : (panel.getD i ⟨0, "", none⟩).raw = some v) :
    v ∈ datePop panel (panel.getD i ⟨0, "", none⟩).date := by
  have hr : panel.getD i ⟨0, "", none⟩ ∈ panel := by
    rw [List.getD_eq_getElem _ _ hi]
    exact List.getElem_mem hi
  apply List.mem_filterMap.mpr
  exact ⟨panel.getD i ⟨0, "", none⟩, List.mem_filter.mpr ⟨hr, by simp⟩, hv⟩

/-- C1: the cross-sectional normalization pass replaces each raw MRS
value by its percentile rank over the non-missing raw values sharing its
Date (`datePop`), using average ranks for ties (`rankAvg` inside
`pctRank`), rounded to 2 decimals; the result lies in [0, 100]; a
missing raw value yields a missing percentile; the unique maximum of a
date maps to exactly 100; and the output row type (`NormRow`) carries
the percentile column in place of the raw column, which is dropped. -/
theorem mrs_percentile_normalization (panel : List PanelRow) (i : ℕ)
    (hi : i < panel.length) :
    (normalizePanel panel).length = panel.length ∧
    ((panel.getD i ⟨0, "", none⟩).raw = none →
      ((normalizePanel panel).getD i ⟨0, "", none⟩).mrs = none) ∧
    ∀ v : ℚ, (panel.getD i ⟨0, "", none⟩).raw = some v →
      ((normalizePanel panel).getD i ⟨0, "", none⟩).mrs
          = some (round2 (pctRank v (datePop panel (panel.getD i ⟨0, "", none⟩).date))) ∧
      0 ≤ round2 (pctRank v (datePop panel (panel.getD i ⟨0, "", none⟩).date)) ∧
      round2 (pctRank v (datePop panel (panel.getD i ⟨0, "", none⟩).date)) ≤ 100 ∧
      ((∀ x ∈ datePop panel (panel.getD i ⟨0, "", none⟩).date, x ≤ v) →
        (datePop panel (panel.getD i ⟨0, "", none⟩).date).count v = 1 →
        round2 (pctRank v (datePop panel (panel.getD i ⟨0, "", none⟩).date)) = 100) := by
  have hmrs : ((normalizePanel panel).getD i ⟨0, "", none⟩).mrs
      = (panel.getD i ⟨0, "", none⟩).raw.map fun v =>
          round2 (pctRank v (datePop panel (panel.getD i ⟨0, "", none⟩).date)) := by
    rw [normalizePanel_getD panel i hi]
  refine ⟨normalizePanel_length panel, ?_, ?_⟩
  · intro hnone
    rw [hmrs, hnone]
    rfl
  · intro v hv
    have hmem := mem_datePop panel i hi v hv
    refine ⟨?_, ?_, ?_, ?_⟩
    · rw [hmrs, hv]
      rfl
    · exact round2_nonneg _ (pctRank_nonneg v _ hmem)
    · exact round2_le_100 _ (pctRank_le_100 v _ hmem)
    · intro hmax hone
      rw [pctRank_max_no_ties v _ hmem hmax hone]
      exact round2_100

/-- Witness for `mrs_percentile_normalization` on a three-instrument,
one-date panel. -/
theorem mrs_percentile_normalization_witness :
    1 < ([⟨7, "a", some 1⟩, ⟨7, "b", some 3⟩, ⟨7, "c", none⟩] : List PanelRow).length ∧
    ((normalizePanel [⟨7, "a", some 1⟩, ⟨7, "b", some 3⟩, ⟨7, "c", none⟩]).length = 3 ∧
      ((([⟨7, "a", some 1⟩, ⟨7, "b", some 3⟩, ⟨7, "c", none⟩] : List PanelRow).getD 1
          ⟨0, "", none⟩).raw = none →
        ((normalizePanel [⟨7, "a", some 1⟩, ⟨7, "b", some 3⟩, ⟨7, "c", none⟩]).getD 1
          ⟨0, "", none⟩).mrs = none) ∧
      ∀ v : ℚ, (([⟨7, "a", some 1⟩, ⟨7, "b", some 3⟩, ⟨7, "c", none⟩] : List PanelRow).getD 1
          ⟨0, "", none⟩).raw = some v →
        ((normalizePanel [⟨7, "a", some 1⟩, ⟨7, "b", some 3⟩, ⟨7, "c", none⟩]).getD 1
            ⟨0, "", none⟩).mrs
            = some (round2 (pctRank v (datePop
                [⟨7, "a", some 1⟩, ⟨7, "b", some 3⟩, ⟨7, "c", none⟩]
                (([⟨7, "a", some 1⟩, ⟨7, "b", some 3⟩, ⟨7, "c", none⟩] : List PanelRow).getD 1
                  ⟨0, "", none⟩).date))) ∧
        0 ≤ round2 (pctRank v (datePop [⟨7, "a", some 1⟩, ⟨7, "b", some 3⟩, ⟨7, "c", none⟩]
            (([⟨7, "a", some 1⟩, ⟨7, "b", some 3⟩, ⟨7, "c", none⟩] : List PanelRow).getD 1
              ⟨0, "", none⟩).date)) ∧
        round2 (pctRank v (datePop [⟨7, "a", some 1⟩, ⟨7, "b", some 3⟩, ⟨7, "c", none⟩]
            (([⟨7, "a", some 1⟩, ⟨7, "b", some 3⟩, ⟨7, "c", none⟩] : List PanelRow).getD 1
              ⟨0, "", none⟩).date)) ≤ 100 ∧
        ((∀ x ∈ datePop [⟨7, "a", some 1⟩, ⟨7, "b", some 3⟩, ⟨7, "c", none⟩]
            (([⟨7, "a", some 1⟩, ⟨7, "b", some 3⟩, ⟨7, "c", none⟩] : List PanelRow).getD 1
              ⟨0, "", none⟩).date, x ≤ v) →
          (datePop [⟨7, "a", some 1⟩, ⟨7, "b", some 3⟩, ⟨7, "c", none⟩]
            (([⟨7, "a", some 1⟩, ⟨7, "b", some 3⟩, ⟨7, "c", none⟩] : List PanelRow).getD 1
              ⟨0, "", none⟩).date).count v = 1 →
          round2 (pctRank v (datePop [⟨7, "a", some 1⟩, ⟨7, "b", some 3⟩, ⟨7, "c", none⟩]
            (([⟨7, "a", some 1⟩, ⟨7, "b", some 3⟩, ⟨7, "c", none⟩] : List PanelRow).getD 1
              ⟨0, "", none⟩).date)) = 100)) :=
  ⟨by decide, mrs_percentile_normalization
    [⟨7, "a", some 1⟩, ⟨7, "b", some 3⟩, ⟨7, "c", none⟩] 1 (by decide)⟩

/-! ## Int32 coercion in the standardizer -/

def INT32_CAST_ERROR : String := "cannot safely cast non-equivalent float64 to int32"

theorem mem_of_mem_dedupKeepLastByDate {r : Row} :
    ∀ {l : List Row}, r ∈ dedupKeepLastByDate l → r ∈ l
  | [], h => absurd h (List.not_mem_nil r)
  | x :: rest, h => by
      unfold dedupKeepLastByDate at h
      by_cases hc : (rest.any fun y => y.date == x.date) = true
      · rw [if_pos hc] at h
        exact List.mem_cons_of_mem x (mem_of_mem_dedupKeepLastByDate h)
      · rw [if_neg hc] at h
        rcases List.mem_cons.mp h with h1 | h1
        · rw [h1]
          exact List.mem_cons_self x rest
        · exact List.mem_cons_of_mem x (mem_of_mem_dedupKeepLastByDate h1)

theorem int32SafeCast_none_of_den {q : ℚ} (h : q.den ≠ 1) : int32SafeCast q = none := by
  unfold int32SafeCast
  rw [if_neg]
  exact fun hc => h hc.1

theorem castColInt32_error_of_bad {xs : List (Option ℚ)} {q : ℚ} (hq : some q ∈ xs)
    (hbad : int32SafeCast q = none) : castColInt32 xs = .error INT32_CAST_ERROR := by
  unfold castColInt32
  rw [if_neg]
  · rfl
  · intro hall
    have := List.all_eq_true.mp hall _ hq
    simp only [hbad] at this
    exact absurd this (by simp)

theorem castColInt32_error_eq {xs : List (Option ℚ)} {e : String}
    (h : castColInt32 xs = .error e) : e = INT32_CAST_ERROR := by
  unfold castColInt32 at h
  by_cases hall : (xs.all fun x? => match x? with
      | none => true
      | some x => (int32SafeCast x).isSome) = true
  · rw [if_pos hall] at h
    exact absurd h (by simp)
  · rw [if_neg hall] at h
    cases h
    rfl

theorem keptRows_close_int {raw_df : List RawRow} {t : String}
    {opns his los clss : List (Option ℤ)} {r : Row}
    (h : r ∈ keptRows raw_df t opns his los clss) : ∃ z : ℤ, r.close = (z : ℚ) := by
  unfold keptRows at h
  rcases List.mem_filterMap.mp h with ⟨i, _, hf⟩
  cases hc : clss.getD i none with
  | none =>
      rw [hc] at hf
      exact absurd hf (by simp)
  | some c =>
      rw [hc] at hf
      have := Option.some.inj hf
      exact ⟨c, by rw [← this]⟩

/-- Amended C10: the standardizer coerces OHLC to nullable Int32 with
pandas' *safe* cast, so a fractional Close value makes standardization
raise the safe-cast error — it is never truncated — and every Close that
survives standardization is integer-valued, which is what downstream
indicator math sees. -/
theorem standardize_close_int32 (raw_df : List RawRow) (ticker : String) :
    ((∃ rr ∈ raw_df, ∃ q : ℚ, rr.cls = some q ∧ q.den ≠ 1) →
      standardize_ohlcv raw_df ticker = .error INT32_CAST_ERROR) ∧
    ∀ out, standardize_ohlcv raw_df ticker = .ok out →
      ∀ r ∈ out, ∃ z : ℤ, r.close = (z : ℚ) := by
  constructor
  · rintro ⟨rr, hrr, q, hcls, hden⟩
    have hne : ¬raw_df.isEmpty = true := by
      cases raw_df with
      | nil => exact absurd hrr (List.not_mem_nil rr)
      | cons a l => simp
    have hclsmem : some q ∈ raw_df.map RawRow.cls := by
      rw [← hcls]
      exact List.mem_map_of_mem RawRow.cls hrr
    have hclserr : castColInt32 (raw_df.map RawRow.cls) = .error INT32_CAST_ERROR :=
      castColInt32_error_of_bad hclsmem (int32SafeCast_none_of_den hden)
    unfold standardize_ohlcv
    rw [if_neg hne]
    cases ho : castColInt32 (raw_df.map RawRow.opn) with
    | error e => rw [castColInt32_error_eq ho]
    | ok os =>
        cases hh : castColInt32 (raw_df.map RawRow.hi) with
        | error e => rw [castColInt32_error_eq hh]
        | ok hs =>
            cases hl : castColInt32 (raw_df.map RawRow.lo) with
            | error e => rw [castColInt32_error_eq hl]
            | ok ls => rw [hclserr]
  · intro out h r hr
    unfold standardize_ohlcv at h
    by_cases hE : raw_df.isEmpty = true
    · rw [if_pos hE] at h
      exact absurd h (by simp)
    · rw [if_neg hE] at h
      cases ho : castColInt32 (raw_df.map RawRow.opn) with
      | error e =>
          rw [ho] at h
          exact absurd h (by simp)
      | ok os =>
          rw [ho] at h
          cases hh : castColInt32 (raw_df.map RawRow.hi) with
          | error e =>
              rw [hh] at h
              exact absurd h (by simp)
          | ok hs =>
              rw [hh] at h
              cases hl : castColInt32 (raw_df.map RawRow.lo) with
              | error e =>
                  rw [hl] at h
                  exact absurd h (by simp)
              | ok ls =>
                  rw [hl] at h
                  cases hc : castColInt32 (raw_df.map RawRow.cls) with
                  | error e =>
                      rw [hc] at h
                      exact absurd h (by simp)
                  | ok clss =>
                      rw [hc] at h
                      simp only at h
                      by_cases hre : (dedupKeepLastByDate (sortByDate
                          (keptRows raw_df (zfill6 ticker) os hs ls clss))).isEmpty = true
                      · rw [if_pos hre] at h
                        exact absurd h (by simp)
                      · rw [if_neg hre] at h
                        have hout := Except.ok.inj h
                        rw [← hout] at hr
                        have h1 := mem_of_mem_dedupKeepLastByDate hr
                        have h2 : r ∈ keptRows raw_df (zfill6 ticker) os hs ls clss :=
                          (List.perm_insertionSort _ _).mem_iff.mp h1
                        exact keptRows_close_int h2

/-- Counterexample for C10 as stated: a raw frame whose Close is the
fractional price 201/2 makes `standardize_ohlcv` raise pandas' safe-cast
error instead of truncating the value to 100. -/
theorem standardize_fractional_close_raises :
    standardize_ohlcv [⟨0, none, none, none, some (mkRat 201 2), some 1000⟩] "000001"
        = .error INT32_CAST_ERROR ∧
    ∀ out, standardize_ohlcv [⟨0, none, none, none, some (mkRat 201 2), some 1000⟩] "000001"
        ≠ .ok out := by
  refine ⟨by decide, ?_⟩
  intro out hout
  rw [(by decide : standardize_ohlcv
      [⟨0, none, none, none, some (mkRat 201 2), some 1000⟩] "000001"
        = .error INT32_CAST_ERROR)] at hout
  exact absurd hout (by simp)

/-- Witness for `standardize_close_int32`: on an all-integer raw frame
standardization succeeds and the surviving closes are integer-valued. -/
theorem standardize_close_int32_witness :
    standardize_ohlcv [⟨0, none, none, none, some 100, some 5⟩] "5930"
        = .ok [⟨0, none, none, none, 100, some 5, "005930"⟩] ∧
    ∀ r ∈ [(⟨0, none, none, none, 100, some 5, "005930"⟩ : Row)], ∃ z : ℤ, r.close = (z : ℚ) :=
  ⟨by decide,
    (standardize_close_int32 [⟨0, none, none, none, some 100, some 5⟩] "5930").2
      [⟨0, none, none, none, 100, some 5, "005930"⟩] (by decide)⟩

/-! ## Per-instrument returns and industry group contribution -/

theorem lookupSeen_eq_none_iff (seen : List (String × ℚ)) (t : String) :
    lookupSeen seen t = none ↔ ∀ p ∈ seen, p.1 ≠ t := by
  unfold lookupSeen
  simp [List.find?_eq_none]

theorem pctChangeGo_getD_none_iff :
    ∀ (l : List IRow) (seen : List (String × ℚ)) (i : ℕ), i < l.length →
      ((pctChangeGo seen l).getD i none = none ↔
        (∀ p ∈ seen, p.1 ≠ (l.getD i default).ticker) ∧
        ∀ j, j < i → (l.getD j default).ticker ≠ (l.getD i default).ticker)
  | [], _, i, hi => absurd hi (by simp)
  | r :: rest, seen, 0, _ => by
      simp only [pctChangeGo, List.getD_cons_zero]
      constructor
      · intro h
        refine ⟨?_, fun j hj => absurd hj (Nat.not_lt_zero j)⟩
        cases hls : lookupSeen seen r.ticker with
        | none => exact (lookupSeen_eq_none_iff seen r.ticker).mp hls
        | some c0 =>
            rw [hls] at h
            exact absurd h (by simp)
      · rintro ⟨h1, _⟩
        rw [(lookupSeen_eq_none_iff seen r.ticker).mpr h1]
  | r :: rest, seen, k + 1, hk => by
      have hk' : k < rest.length := by simpa using hk
      have ih := pctChangeGo_getD_none_iff rest ((r.ticker, r.close) :: seen) k hk'
      simp only [pctChangeGo, List.getD_cons_succ]
      rw [ih]
      constructor
      · rintro ⟨h1, h2⟩
        refine ⟨fun p hp => h1 p (List.mem_cons_of_mem _ hp), ?_⟩
        intro j hj
        cases j with
        | zero =>
            simpa using h1 (r.ticker, r.close) (List.mem_cons_self _ _)
        | succ j2 =>
            have hj2 : j2 < k := by omega
            simpa using h2 j2 hj2
      · rintro ⟨h1, h2⟩
        constructor
        · intro p hp
          rcases List.mem_cons.mp hp with h | h
          · rw [h]
            simpa using h2 0 (Nat.succ_pos k)
          · exact h1 p h
        · intro j hj
          have := h2 (j + 1) (by omega)
          simpa using this

theorem pctChangeRets_none_iff (rows : List IRow) (i : ℕ) (hi : i < rows.length) :
    (pctChangeRets rows).getD i none = none ↔
      ∀ j, j < i → (rows.getD j default).ticker ≠ (rows.getD i default).ticker := by
  have h := pctChangeGo_getD_none_iff rows [] i hi
  unfold pctChangeRets
  rw [h]
  simp

theorem first_occurrence_iff_earliest (rows : List IRow)
    (hsorted : rows.Pairwise fun a b =>
      a.ticker < b.ticker ∨ (a.ticker = b.ticker ∧ a.date < b.date))
    (i : ℕ) (hi : i < rows.length) :
    (∀ j, j < i → (rows.getD j default).ticker ≠ (rows.getD i default).ticker) ↔
      (∀ j, j < rows.length → j ≠ i →
        (rows.getD j default).ticker = (rows.getD i default).ticker →
        (rows.getD i default).date < (rows.getD j default).date) := by
  have hpw := List.pairwise_iff_getElem.mp hsorted
  constructor
  · intro h1 j hj hne hticker
    rcases Nat.lt_or_ge j i with hlt | hge
    · exact absurd hticker (h1 j hlt)
    · have hij : i < j := by omega
      have := hpw i j hi hj hij
      rw [List.getD_eq_getElem _ _ hi, List.getD_eq_getElem _ _ hj] at hticker ⊢
      rcases this with h | h
      · rw [hticker] at h
        exact absurd h (lt_irrefl _)
      · exact h.2
  · intro h1 j hj hticker
    have hjlen : j < rows.length := lt_trans hj hi
    have := hpw j i hjlen hi hj
    rw [List.getD_eq_getElem _ _ hjlen, List.getD_eq_getElem _ _ hi] at hticker
    rcases this with h | h
    · rw [hticker] at h
      exact absurd h (lt_irrefl _)
    · have hdate := h.2
      have := h1 j hjlen (by omega) (by
        rw [List.getD_eq_getElem _ _ hjlen, List.getD_eq_getElem _ _ hi]
        exact hticker)
      rw [List.getD_eq_getElem _ _ hjlen, List.getD_eq_getElem _ _ hi] at this
      exact absurd hdate (not_lt_of_gt this)

theorem contribRets_ignore_none (pre post : List TRow) (r0 : TRow) (h0 : r0.ret = none)
    (k : String) (d : ℤ) :
    contribRets (pre ++ r0 :: post) k d = contribRets (pre ++ post) k d := by
  unfold contribRets groupRows
  rw [List.filter_append, List.filter_append, List.filter_cons]
  by_cases hc : (r0.key == k && r0.date == d) = true
  · rw [if_pos hc]
    rw [List.filterMap_append, List.filterMap_append, List.filterMap_cons, h0]
  · rw [if_neg hc]

theorem groupMean_none_of_all_none (t : List TRow) (k : String) (d : ℤ)
    (h : ∀ r ∈ groupRows t k d, r.ret = none) :
    groupCount t k d = 0 ∧ groupMean t k d = none := by
  have hnil : contribRets t k d = [] := by
    unfold contribRets
    rw [List.filterMap_eq_nil_iff]
    exact h
  constructor
  · unfold groupCount
    rw [hnil]
    rfl
  · unfold groupMean
    rw [if_pos (by rw [hnil]; rfl)]

/-- C9: per-instrument returns are percentage changes within each
instrument's own series, so (for a panel sorted by ticker then strictly
increasing date, as the engine sorts it) a row's return is missing
exactly when the row is the earliest date of its own ticker's series;
a missing-return row contributes to neither the industry's mean return
nor its ConstituentCount; and a (key, date) group all of whose rows have
missing returns has ConstituentCount 0 and a missing mean even though
price rows exist there. -/
theorem industry_first_obs_no_contribution (rows : List IRow)
    (hsorted : rows.Pairwise fun a b =>
      a.ticker < b.ticker ∨ (a.ticker = b.ticker ∧ a.date < b.date))
    (keyOf : String → String) :
    (∀ i, i < rows.length →
      ((pctChangeRets rows).getD i none = none ↔
        ∀ j, j < rows.length → j ≠ i →
          (rows.getD j default).ticker = (rows.getD i default).ticker →
          (rows.getD i default).date < (rows.getD j default).date)) ∧
    (∀ (pre post : List TRow) (r0 : TRow), r0.ret = none → ∀ (k : String) (d : ℤ),
      groupMean (pre ++ r0 :: post) k d = groupMean (pre ++ post) k d ∧
      groupCount (pre ++ r0 :: post) k d = groupCount (pre ++ post) k d) ∧
    ∀ (k : String) (d : ℤ),
      groupRows (mkTagged rows keyOf) k d ≠ [] →
      (∀ r ∈ groupRows (mkTagged rows keyOf) k d, r.ret = none) →
      groupCount (mkTagged rows keyOf) k d = 0 ∧
        groupMean (mkTagged rows keyOf) k d = none := by
  refine ⟨?_, ?_, ?_⟩
  · intro i hi
    rw [pctChangeRets_none_iff rows i hi]
    exact first_occurrence_iff_earliest rows hsorted i hi
  · intro pre post r0 h0 k d
    have hcr := contribRets_ignore_none pre post r0 h0 k d
    constructor
    · unfold groupMean
      rw [hcr]
    · unfold groupCount
      rw [hcr]
  · intro k d _ hall
    exact groupMean_none_of_all_none _ k d hall

/-- Witness for `industry_first_obs_no_contribution` on a two-row
single-ticker panel. -/
theorem industry_first_obs_no_contribution_witness :
    (([⟨"A", 1, 100⟩, ⟨"A", 2, 110⟩] : List IRow).Pairwise fun a b =>
      a.ticker < b.ticker ∨ (a.ticker = b.ticker ∧ a.date < b.date)) ∧
    ((∀ i, i < ([⟨"A", 1, 100⟩, ⟨"A", 2, 110⟩] : List IRow).length →
      ((pctChangeRets [⟨"A", 1, 100⟩, ⟨"A", 2, 110⟩]).getD i none = none ↔
        ∀ j, j < ([⟨"A", 1, 100⟩, ⟨"A", 2, 110⟩] : List IRow).length → j ≠ i →
          (([⟨"A", 1, 100⟩, ⟨"A", 2, 110⟩] : List IRow).getD j default).ticker
            = (([⟨"A", 1, 100⟩, ⟨"A", 2, 110⟩] : List IRow).getD i default).ticker →
          (([⟨"A", 1, 100⟩, ⟨"A", 2, 110⟩] : List IRow).getD i default).date
            < (([⟨"A", 1, 100⟩, ⟨"A", 2, 110⟩] : List IRow).getD j default).date)) ∧
    (∀ (pre post : List TRow) (r0 : TRow), r0.ret = none → ∀ (k : String) (d : ℤ),
      groupMean (pre ++ r0 :: post) k d = groupMean (pre ++ post) k d ∧
      groupCount (pre ++ r0 :: post) k d = groupCount (pre ++ post) k d) ∧
    ∀ (k : String) (d : ℤ),
      groupRows (mkTagged [⟨"A", 1, 100⟩, ⟨"A", 2, 110⟩] (fun _ => "IND")) k d ≠ [] →
      (∀ r ∈ groupRows (mkTagged [⟨"A", 1, 100⟩, ⟨"A", 2, 110⟩] (fun _ => "IND")) k d,
        r.ret = none) →
      groupCount (mkTagged [⟨"A", 1, 100⟩, ⟨"A", 2, 110⟩] (fun _ => "IND")) k d = 0 ∧
        groupMean (mkTagged [⟨"A", 1, 100⟩, ⟨"A", 2, 110⟩] (fun _ => "IND")) k d = none) := by
  have hpw : ([⟨"A", 1, 100⟩, ⟨"A", 2, 110⟩] : List IRow).Pairwise fun a b =>
      a.ticker < b.ticker ∨ (a.ticker = b.ticker ∧ a.date < b.date) := by
    refine List.Pairwise.cons ?_ (List.pairwise_singleton _ _)
    intro z hz
    rw [List.mem_singleton.mp hz]
    right
    exact ⟨rfl, by decide⟩
  exact ⟨hpw,
    industry_first_obs_no_contribution [⟨"A", 1, 100⟩, ⟨"A", 2, 110⟩] hpw fun _ => "IND"⟩

/-! ## Industry re-indexing onto the full grid -/

theorem industryKeys_nodup (t : List TRow) : (industryKeys t).Nodup :=
  (List.perm_insertionSort _ _).nodup_iff.mpr (List.nodup_dedup _)

theorem map_range_getD (dates : List ℤ) (f : ℤ → α) :
    (List.range dates.length).map (fun i => f (dates.getD i 0)) = dates.map f := by
  apply List.ext_getElem
  · simp
  · intro k h1 h2
    simp only [List.getElem_map, List.getElem_range]
    congr 1
    have hk : k < dates.length := by simpa using h2
    rw [List.getD_eq_getElem _ _ hk]

theorem reindexFill_proj (keys : List String) (dates : List ℤ) (t : List TRow) :
    (reindexFill keys dates t).map (fun g => (g.key, g.date)) = crossProd keys dates := by
  unfold reindexFill crossProd
  rw [List.map_flatMap]
  congr 1
  funext k
  rw [List.map_map]
  exact map_range_getD dates fun d => (k, d)

theorem reindexFill_length (dates : List ℤ) (t : List TRow) :
    ∀ keys : List String, (reindexFill keys dates t).length = keys.length * dates.length
  | [] => by simp [reindexFill]
  | k :: ks => by
      have ih := reindexFill_length dates t ks
      unfold reindexFill at ih ⊢
      rw [List.flatMap_cons, List.length_append, ih]
      simp [Nat.succ_mul, Nat.add_comm]

theorem crossProd_nodup (dates : List ℤ) (hdates : dates.Nodup) :
    ∀ keys : List String, keys.Nodup → (crossProd keys dates).Nodup
  | [], _ => by simp [crossProd]
  | k :: ks, hkeys => by
      have ih := crossProd_nodup dates hdates ks (List.Nodup.of_cons hkeys)
      have hknot : k ∉ ks := by
        intro hk
        exact (List.nodup_cons.mp hkeys).1 hk
      unfold crossProd
      rw [List.flatMap_cons]
      rw [List.nodup_append]
      refine ⟨?_, ih, ?_⟩
      · exact hdates.map fun d1 d2 he => congrArg Prod.snd he
      · intro p hp hp2
        rcases List.mem_map.mp hp with ⟨d, _, rfl⟩
        rcases List.mem_flatMap.mp hp2 with ⟨k2, hk2, hpk2⟩
        rcases List.mem_map.mp hpk2 with ⟨d2, _, he⟩
        have : k2 = k := congrArg Prod.fst he
        rw [this] at hk2
        exact hknot hk2

theorem mem_crossProd (keys : List String) (dates : List ℤ) (p : String × ℤ) :
    p ∈ crossProd keys dates ↔ p.1 ∈ keys ∧ p.2 ∈ dates := by
  unfold crossProd
  constructor
  · intro hp
    rcases List.mem_flatMap.mp hp with ⟨k, hk, hpk⟩
    rcases List.mem_map.mp hpk with ⟨d, hd, he⟩
    rw [← he]
    exact ⟨hk, hd⟩
  · rintro ⟨h1, h2⟩
    refine List.mem_flatMap.mpr ⟨p.1, h1, List.mem_map.mpr ⟨p.2, h2, rfl⟩⟩

theorem mem_reindexFill (keys : List String) (dates : List ℤ) (t : List TRow) (g : GRow) :
    g ∈ reindexFill keys dates t ↔
      ∃ k ∈ keys, ∃ i, i < dates.length ∧ g = gridCell t dates k i := by
  unfold reindexFill
  constructor
  · intro hg
    rcases List.mem_flatMap.mp hg with ⟨k, hk, hgk⟩
    rcases List.mem_map.mp hgk with ⟨i, hi, he⟩
    exact ⟨k, hk, i, List.mem_range.mp hi, he.symm⟩
  · rintro ⟨k, hk, i, hi, rfl⟩
    exact List.mem_flatMap.mpr ⟨k, hk, List.mem_map.mpr ⟨i, List.mem_range.mpr hi, rfl⟩⟩

theorem gridCell_zero_fill (t : List TRow) (dates : List ℤ) (k : String) (i : ℕ)
    (hnone : ∀ r ∈ t, ¬(r.key = k ∧ r.date = dates.getD i 0 ∧ r.ret ≠ none)) :
    (gridCell t dates k i).ret = 0 ∧ (gridCell t dates k i).cnt = 0 := by
  have hall : ∀ r ∈ groupRows t k (dates.getD i 0), r.ret = none := by
    intro r hr
    rcases List.mem_filter.mp hr with ⟨hrt, hcond⟩
    have hkey : r.key = k ∧ r.date = dates.getD i 0 := by
      have := hcond
      simp only [Bool.and_eq_true, beq_iff_eq] at this
      exact this
    by_contra hne
    exact hnone r hrt ⟨hkey.1, hkey.2, hne⟩
  obtain ⟨hc, hm⟩ := groupMean_none_of_all_none t k (dates.getD i 0) hall
  constructor
  · show fillRet t k (dates.getD i 0) = 0
    unfold fillRet
    rw [hm]
    rfl
  · exact hc

theorem gridCell_close_compound (t : List TRow) (dates : List ℤ) (k : String) (i : ℕ) :
    (gridCell t dates k (i + 1)).close
      = (gridCell t dates k i).close * (1 + fillRet t k (dates.getD (i + 1) 0)) := by
  unfold gridCell
  simp only
  rw [List.range_succ, List.map_append, List.prod_append]
  simp [mul_assoc]

/-- C7: the industry re-indexing produces, for the (deduplicated,
sorted) observed keys and the (duplicate-free) global date grid, a frame
whose (key, date) projection is exactly the cross product — one row per
pair, no gaps, no duplicates — in which every cell with no contributing
constituent carries IndustryReturn 0 and ConstituentCount 0, and whose
IndustryClose compounds per key across every grid date. -/
theorem industry_reindex_grid (t : List TRow) (dates : List ℤ) (hdates : dates.Nodup) :
    (industryKeys t).Nodup ∧
    (reindexFill (industryKeys t) dates t).length = (industryKeys t).length * dates.length ∧
    (reindexFill (industryKeys t) dates t).map (fun g => (g.key, g.date))
        = crossProd (industryKeys t) dates ∧
    (crossProd (industryKeys t) dates).Nodup ∧
    (∀ p : String × ℤ, p ∈ crossProd (industryKeys t) dates ↔
      p.1 ∈ industryKeys t ∧ p.2 ∈ dates) ∧
    (∀ g ∈ reindexFill (industryKeys t) dates t,
      (∀ r ∈ t, ¬(r.key = g.key ∧ r.date = g.date ∧ r.ret ≠ none)) →
        g.ret = 0 ∧ g.cnt = 0) ∧
    (∀ k ∈ industryKeys t, ∀ i, i < dates.length →
      gridCell t dates k i ∈ reindexFill (industryKeys t) dates t) ∧
    (∀ k ∈ industryKeys t, ∀ i,
      (gridCell t dates k (i + 1)).close
        = (gridCell t dates k i).close * (1 + fillRet t k (dates.getD (i + 1) 0))) := by
  refine ⟨industryKeys_nodup t, reindexFill_length dates t _,
    reindexFill_proj _ dates t,
    crossProd_nodup dates hdates _ (industryKeys_nodup t),
    mem_crossProd _ dates, ?_, ?_, ?_⟩
  · intro g hg hnone
    rcases (mem_reindexFill _ dates t g).mp hg with ⟨k, _, i, _, rfl⟩
    exact gridCell_zero_fill t dates k i hnone
  · intro k hk i hi
    exact (mem_reindexFill _ dates t _).mpr ⟨k, hk, i, hi, rfl⟩
  · intro k _ i
    exact gridCell_close_compound t dates k i

/-- Witness for `industry_reindex_grid` on a one-key tagged panel and a
two-date grid. -/
theorem industry_reindex_grid_witness :
    ([4, 9] : List ℤ).Nodup ∧
    ((industryKeys [⟨"K", 9, some 1⟩]).Nodup ∧
      (reindexFill (industryKeys [⟨"K", 9, some 1⟩]) [4, 9] [⟨"K", 9, some 1⟩]).length
          = (industryKeys [⟨"K", 9, some 1⟩]).length * 2 ∧
      (reindexFill (industryKeys [⟨"K", 9, some 1⟩]) [4, 9] [⟨"K", 9, some 1⟩]).map
          (fun g => (g.key, g.date)) = crossProd (industryKeys [⟨"K", 9, some 1⟩]) [4, 9] ∧
      (crossProd (industryKeys [⟨"K", 9, some 1⟩]) [4, 9]).Nodup ∧
      (∀ p : String × ℤ, p ∈ crossProd (industryKeys [⟨"K", 9, some 1⟩]) [4, 9] ↔
        p.1 ∈ industryKeys [⟨"K", 9, some 1⟩] ∧ p.2 ∈ ([4, 9] : List ℤ)) ∧
      (∀ g ∈ reindexFill (industryKeys [⟨"K", 9, some 1⟩]) [4, 9] [⟨"K", 9, some 1⟩],
        (∀ r ∈ [(⟨"K", 9, some 1⟩ : TRow)],
          ¬(r.key = g.key ∧ r.date = g.date ∧ r.ret ≠ none)) →
          g.ret = 0 ∧ g.cnt = 0) ∧
      (∀ k ∈ industryKeys [⟨"K", 9, some 1⟩], ∀ i, i < 2 →
        gridCell [⟨"K", 9, some 1⟩] [4, 9] k i
          ∈ reindexFill (industryKeys [⟨"K", 9, some 1⟩]) [4, 9] [⟨"K", 9, some 1⟩]) ∧
      (∀ k ∈ industryKeys [⟨"K", 9, some 1⟩], ∀ i,
        (gridCell [⟨"K", 9, some 1⟩] [4, 9] k (i + 1)).close
          = (gridCell [⟨"K", 9, some 1⟩] [4, 9] k i).close
              * (1 + fillRet [⟨"K", 9, some 1⟩] k (([4, 9] : List ℤ).getD (i + 1) 0)))) :=
  ⟨by decide, industry_reindex_grid [⟨"K", 9, some 1⟩] [4, 9] (by decide)⟩

/-! ## Orchestrator artifacts and fail-fast semantics -/

/-- A one-ticker, all-integer provider used to evaluate the pipeline at
a concrete input. -/
def sampleProvider : Provider :=
  { tickers := ["000001"]
    master := [⟨"000001", "KOSPI", "L", "M", "S"⟩]
    fetchRaw := fun _ => .ok [⟨0, none, none, none, some 100, some 10⟩] }

theorem processTickers_error_shape (p : Provider) (bench : BenchSeries) :
    ∀ (ts : List String) (e : RunError), processTickers p bench ts = .error e →
      e.stage = some "fetch/standardize/feature" ∧ ∃ tk, e.ticker = some tk
  | [], e, h => absurd h (by simp [processTickers])
  | t :: rest, e, h => by
      unfold processTickers at h
      cases hf : fetchOne p bench t with
      | error msg =>
          rw [hf] at h
          cases h
          exact ⟨rfl, t, rfl⟩
      | ok f =>
          rw [hf] at h
          cases hr : processTickers p bench rest with
          | error e2 =>
              rw [hr] at h
              cases h
              exact processTickers_error_shape p bench rest e hr
          | ok fs =>
              rw [hr] at h
              exact absurd h (by simp [Except.map])

/-- Amended C5: a failed run writes no industry artifact and no success
metadata; a per-instrument failure aborts before any artifact is written
and surfaces the offending ticker with the stage
"fetch/standardize/feature"; but a failure inside the industry stage
happens after the panel parquet is already persisted, so a failed run
can leave the panel artifact (and only it) behind. -/
theorem run_fail_fast_artifacts (cfg : CacheBuildConfig) (p : Provider)
    (arts : List Artifact) (e : RunError)
    (h : run_cache_build cfg p = (arts, .error e)) :
    (∀ cols, Artifact.industryParquet cols ∉ arts) ∧
    Artifact.metaJson ∉ arts ∧
    Artifact.industryMetaJson ∉ arts ∧
    (∀ tk, e.ticker = some tk →
      e.stage = some "fetch/standardize/feature" ∧ arts = []) ∧
    (arts = [] ∨
      (arts = [Artifact.panelParquet
          (if cfg.testLimit > 0 then p.tickers.take cfg.testLimit else p.tickers)] ∧
        cfg.industryOutput = true)) := by
  unfold run_cache_build at h
  by_cases h1 : (if cfg.testLimit > 0 then p.tickers.take cfg.testLimit
      else p.tickers).isEmpty = true
  · rw [if_pos h1] at h
    rw [Prod.mk.injEq] at h
    obtain ⟨ha, he⟩ := h
    cases he
    subst ha
    exact ⟨fun cols => by simp, by simp, by simp,
      fun tk htk => absurd htk (by simp), Or.inl rfl⟩
  · rw [if_neg h1] at h
    cases hb : (p.fetchRaw MANSFIELD_BENCHMARK_TICKER).bind
        (fun raw => standardize_ohlcv raw MANSFIELD_BENCHMARK_TICKER) with
    | error msg =>
        rw [hb] at h
        rw [Prod.mk.injEq] at h
        obtain ⟨ha, he⟩ := h
        cases he
        subst ha
        exact ⟨fun cols => by simp, by simp, by simp,
          fun tk htk => absurd htk (by simp), Or.inl rfl⟩
    | ok benchStd =>
        rw [hb] at h
        simp only at h
        by_cases h2 : (benchStd.map fun r => (r.date, r.close)).isEmpty = true
        · rw [if_pos h2] at h
          rw [Prod.mk.injEq] at h
          obtain ⟨ha, he⟩ := h
          cases he
          subst ha
          exact ⟨fun cols => by simp, by simp, by simp,
            fun tk htk => absurd htk (by simp), Or.inl rfl⟩
        · rw [if_neg h2] at h
          cases hp : processTickers p (benchStd.map fun r => (r.date, r.close))
              (if cfg.testLimit > 0 then p.tickers.take cfg.testLimit else p.tickers) with
          | error e2 =>
              rw [hp] at h
              rw [Prod.mk.injEq] at h
              obtain ⟨ha, he⟩ := h
              cases he
              subst ha
              obtain ⟨hstage, _⟩ := processTickers_error_shape p _ _ e hp
              exact ⟨fun cols => by simp, by simp, by simp,
                fun tk htk => ⟨hstage, rfl⟩, Or.inl rfl⟩
          | ok frames =>
              rw [hp] at h
              simp only at h
              by_cases h3 : cfg.industryOutput = true
              · rw [if_pos h3] at h
                by_cases h4 : cfg.industryBenchmark = INDUSTRY_BENCHMARK_UNIVERSE
                    ∨ cfg.industryBenchmark = INDUSTRY_BENCHMARK_069500
                · rw [if_pos h4] at h
                  by_cases h5 : p.master.isEmpty = true
                  · rw [if_pos h5] at h
                    rw [Prod.mk.injEq] at h
                    obtain ⟨ha, he⟩ := h
                    cases he
                    subst ha
                    exact ⟨fun cols => by simp, by simp, by simp,
                      fun tk htk => absurd htk (by simp), Or.inr ⟨rfl, h3⟩⟩
                  · rw [if_neg h5] at h
                    rw [Prod.mk.injEq] at h
                    obtain ⟨_, he⟩ := h
                    exact absurd he (by by_cases hm : cfg.industryMetaOutput = true <;>
                      simp [hm])
                · rw [if_neg h4] at h
                  rw [Prod.mk.injEq] at h
                  obtain ⟨ha, he⟩ := h
                  cases he
                  subst ha
                  exact ⟨fun cols => by simp, by simp, by simp,
                    fun tk htk => absurd htk (by simp), Or.inr ⟨rfl, h3⟩⟩
              · rw [if_neg h3] at h
                rw [Prod.mk.injEq] at h
                obtain ⟨_, he⟩ := h
                exact absurd he (by simp)

/-- Counterexample for C5 as stated: a run whose industry stage fails
(invalid industry benchmark selection) still raises, but the feature
parquet was already written in the preceding stage, so the failed run
leaves a panel artifact behind. -/
theorem run_industry_failure_leaves_panel :
    run_cache_build ⟨true, false, "foo", 0⟩ sampleProvider
        = ([Artifact.panelParquet ["000001"]],
            .error ⟨none, none, "invalid industry_benchmark: foo"⟩) ∧
    Artifact.panelParquet ["000001"]
        ∈ (run_cache_build ⟨true, false, "foo", 0⟩ sampleProvider).1 := by
  constructor
  · decide
  · rw [(by decide : run_cache_build ⟨true, false, "foo", 0⟩ sampleProvider
        = ([Artifact.panelParquet ["000001"]],
            .error ⟨none, none, "invalid industry_benchmark: foo"⟩))]
    exact List.mem_singleton.mpr rfl

/-- Witness for `run_fail_fast_artifacts` at a concrete run whose second
instrument fails to fetch. -/
theorem run_fail_fast_artifacts_witness :
    run_cache_build ⟨false, false, "universe", 0⟩
        { tickers := ["000001", "000002"]
          master := [⟨"000001", "KOSPI", "L", "M", "S"⟩]
          fetchRaw := fun t => if t = "000002" then .error "boom"
            else .ok [⟨0, none, none, none, some 100, some 10⟩] }
        = ([], .error ⟨some "fetch/standardize/feature", some "000002", "boom"⟩) ∧
    ((∀ cols, Artifact.industryParquet cols ∉ ([] : List Artifact)) ∧
      Artifact.metaJson ∉ ([] : List Artifact) ∧
      Artifact.industryMetaJson ∉ ([] : List Artifact) ∧
      (∀ tk, (some "000002" : Option String) = some tk →
        (some "fetch/standardize/feature" : Option String)
            = some "fetch/standardize/feature" ∧ ([] : List Artifact) = []) ∧
      (([] : List Artifact) = [] ∨
        (([] : List Artifact) = [Artifact.panelParquet
            (if (0 : ℕ) > 0 then ["000001", "000002"].take 0 else ["000001", "000002"])] ∧
          false = true))) :=
  ⟨by decide,
    by
      have h := run_fail_fast_artifacts ⟨false, false, "universe", 0⟩
        { tickers := ["000001", "000002"]
          master := [⟨"000001", "KOSPI", "L", "M", "S"⟩]
          fetchRaw := fun t => if t = "000002" then .error "boom"
            else .ok [⟨0, none, none, none, some 100, some 10⟩] }
        [] ⟨some "fetch/standardize/feature", some "000002", "boom"⟩ (by decide)
      exact ⟨h.1, h.2.1, h.2.2.1, fun tk htk => ⟨rfl, rfl⟩, Or.inl rfl⟩⟩

/-- C3 (evaluating the code at the failing configuration): the persisted
industry frame's column list keeps every `MRS_<horizon>_raw` column and
contains no `MRS_<horizon>` percentile column — the orchestrator's
percentile pass never touches the industry frames — and a concrete
successful industry run writes the industry parquet with exactly these
columns. -/
theorem industry_table_keeps_raw_mrs_columns :
    (∀ p ∈ MRS_WINDOWS,
      (p.1 ++ "_raw") ∈ industryOutputColumns ∧ p.1 ∉ industryOutputColumns) ∧
    run_cache_build ⟨true, true, INDUSTRY_BENCHMARK_UNIVERSE, 0⟩ sampleProvider
        = ([Artifact.panelParquet ["000001"],
            Artifact.industryParquet industryOutputColumns,
            Artifact.industryMetaJson, Artifact.metaJson], .ok ()) := by
  constructor
  · decide
  · decide

end CapybaraFetcher
